import Mathlib

/-!
Shallow embedding of the SpreadingCascade simulator
(src/source/queue.c and src/source/scascade.c).

Machine `int` values that stay non-negative throughout the program
(node ids, times, counters, queue indices, bounds) are modelled as `Nat`;
the epidemic id, which is read from a file and only ever copied into
trace records, is modelled as `Int`.

Randomness: the C engine draws one `rand()` per (active node, out-neighbor)
pair and compares `(double)rand() <= (double)RAND_MAX * p`.  The engine is
parametrised here by a trial oracle `R : Nat → Bool` giving the outcome of
the k-th draw; a `draws` counter in the state indexes into it.  For `p = 1`
the C comparison `rand() <= RAND_MAX * 1.0` always holds, so `p = 1`
corresponds exactly to the oracle `fun _ => true`.

The `FILE *output` trace sink is modelled as the list of records that the
run prints (`trace`); a record is `(t, u, v, id)` as in the C `fprintf`.
Two ghost observation fields are added to the state: `dequeued` logs each
`(u, t)` taken from the frontier, and `overflow` records whether the
`assert(!queue_full(q))` in `queue_add` ever had a false argument (in C
that assert aborts the process).  Neither field feeds back into control
flow or data, so the non-ghost fields evolve exactly as in the C code.
-/

/-- Stop criterion, from scascade.c (`MaxTime` is printed as "maxdepth",
`NumInfected` as "maxsize"). -/
inductive Stopc where
  | MaxTime
  | NumInfected
deriving DecidableEq

/-- The bounded ring buffer of queue.c.  The C field `end` is a Lean
keyword and is called `qend` here. -/
structure Queue where
  size : Nat
  begin : Nat
  qend : Nat
  nodes : List Nat
deriving DecidableEq

/-- queue.c `queue_empty`. -/
def queue_empty (q : Queue) : Bool := q.begin == q.qend

/-- queue.c `queue_full`. -/
def queue_full (q : Queue) : Bool := q.begin == (q.qend + 1) % q.size

/-- queue.c `queue_new`: allocates `size + 1` slots (calloc-style zeroed). -/
def queue_new (size : Nat) : Queue :=
  { size := size + 1, begin := 0, qend := 0, nodes := List.replicate (size + 1) 0 }

/-- queue.c `queue_add` without its assert; the caller-side wrapper
`epidemic_enqueue` records the assert's argument in the `overflow` ghost
field. -/
def queue_add (q : Queue) (e : Nat) : Queue :=
  { q with nodes := q.nodes.set q.qend e, qend := (q.qend + 1) % q.size }

/-- queue.c `queue_get`: returns `nodes[begin]` and advances `begin`.
(The C code asserts non-emptiness; the engine only calls it after a
`queue_empty` check, and the claims under study never pop empty.) -/
def queue_get (q : Queue) : Nat × Queue :=
  (q.nodes.getD q.begin 0, { q with begin := (q.begin + 1) % q.size })

/-- Number of elements currently held (distance from `begin` to `qend`
around the ring). -/
def Queue.count (q : Queue) : Nat :=
  if q.begin ≤ q.qend then q.qend - q.begin else q.size + q.qend - q.begin

/-- The FIFO contents, head first. -/
def Queue.toList (q : Queue) : List Nat :=
  (List.range q.count).map (fun i => q.nodes.getD ((q.begin + i) % q.size) 0)

/-- The directed graph consumed by the engine.  The loader (prelim.c, not
part of the sources under study) fills `n`, a `degrees` array and a
`links` array of adjacency lists; per the graph contract the degree of
`u` is the length of its adjacency list, so the list alone is kept and
`degrees` is derived. -/
structure graph where
  n : Nat
  links : List (List Nat)
deriving DecidableEq

/-- Out-neighbor list of `u` (C: `g->links[u]`, traversed for
`i < g->degrees[u]`). -/
def graph.out (g : graph) (u : Nat) : List Nat := g.links.getD u []

/-- scascade.c `InitialCondition`.  The C `num_infected` field always
equals the length of the `infected` list (`ic_init` allocates them
together), so only the list is kept. -/
structure InitialCondition where
  id : Int
  infected : List Nat
  bound : Nat
  stop_criterion : Stopc
deriving DecidableEq

/-- scascade.c `Epidemic`.  `trace` is the list of records printed to the
output sink; `draws`, `dequeued` and `overflow` are observation fields
(see the header comment). -/
structure Epidemic where
  id : Int
  t : Nat
  num_infected : Nat
  cascade_links : Nat
  bound : Nat
  stop_criterion : Stopc
  g : graph
  infected : List Nat
  active : Queue
  trace : List (Nat × Nat × Nat × Int)
  draws : Nat
  dequeued : List (Nat × Nat)
  overflow : Bool
deriving DecidableEq

/-- `queue_add(epidemic->active, v)` as called by the engine: the
`assert(!queue_full(q))` inside the C `queue_add` is recorded in the
`overflow` ghost field (in C it aborts the process if full). -/
def epidemic_enqueue (ep : Epidemic) (v : Nat) : Epidemic :=
  { ep with
    overflow := ep.overflow || queue_full ep.active
    active := queue_add ep.active v }

/-- One seed of the `epidemic_new` loop body:
`queue_add(epidemic->active, s); epidemic->infected[s] = 1;`. -/
def epidemic_seed (ep : Epidemic) (s : Nat) : Epidemic :=
  let ep' := epidemic_enqueue ep s
  { ep' with infected := ep'.infected.set s 1 }

/-- scascade.c `epidemic_new` (p and the FILE pointer are handled as
described in the header; `calloc` zeroes the `infected` array). -/
def epidemic_new (g : graph) (ic : InitialCondition) : Epidemic :=
  let ep0 : Epidemic :=
    { id := ic.id
      t := 1
      num_infected := ic.infected.length
      cascade_links := 0
      bound := ic.bound
      stop_criterion := ic.stop_criterion
      g := g
      infected := List.replicate g.n 0
      active := queue_new g.n
      trace := []
      draws := 0
      dequeued := []
      overflow := false }
  ic.infected.foldl epidemic_seed ep0

/-- Appends one trace record, as the C
`fprintf(epidemic->output, "%d %d %d %d\n", t, u, v, epidemic->id)`. -/
def emit (ep : Epidemic) (t u v : Nat) : Epidemic :=
  { ep with trace := ep.trace ++ [(t, u, v, ep.id)] }

/-- One iteration of the inner `for` loop of `epidemic_run` for neighbor
`v` of provider `u` at time `t`: draw, and on success either first-infect
`v` (with the MaxSize termination check) or handle the already-infected
case.  The returned Bool is true when the C code executes `return`. -/
def run_arc (R : Nat → Bool) (ep : Epidemic) (u t v : Nat) : Epidemic × Bool :=
  let succ := R ep.draws
  let ep := { ep with draws := ep.draws + 1 }
  if succ then
    if ep.infected.getD v 0 = 0 then
      let ep := { ep with infected := ep.infected.set v (t + 1) }
      let ep := epidemic_enqueue ep v
      let ep := { ep with
        num_infected := ep.num_infected + 1
        cascade_links := ep.cascade_links + 1
        t := t }
      if ep.stop_criterion = Stopc.NumInfected ∧ ep.bound = ep.num_infected then
        (emit ep t u v, true)
      else
        (emit ep t u v, false)
    else
      let ep :=
        if ep.infected.getD v 0 = t + 1 then
          { ep with cascade_links := ep.cascade_links + 1 }
        else ep
      (emit ep t u v, false)
  else
    (ep, false)

/-- The inner `for` loop of `epidemic_run` over the out-neighbors of `u`. -/
def run_arcs (R : Nat → Bool) (ep : Epidemic) (u t : Nat) :
    List Nat → Epidemic × Bool
  | [] => (ep, false)
  | v :: vs =>
    let r := run_arc R ep u t v
    if r.2 then (r.1, true) else run_arcs R r.1 u t vs

/-- How a run ended: `finished` via the `while` guard (frontier empty),
`depthStop` via the MaxTime `return`, `sizeStop` via the NumInfected
`return`, `outOfFuel` when the supplied iteration budget ran out (one
unit of fuel is one dequeue, so any budget larger than the number of
dequeues reproduces the C loop exactly). -/
inductive RunResult where
  | finished
  | depthStop
  | sizeStop
  | outOfFuel
deriving DecidableEq

/-- scascade.c `epidemic_run`, fuel-indexed: each outer `while` iteration
consumes one unit of fuel. -/
def epidemic_run (R : Nat → Bool) : Nat → Epidemic → Epidemic × RunResult
  | 0, ep => (ep, RunResult.outOfFuel)
  | fuel + 1, ep =>
    if queue_empty ep.active then (ep, RunResult.finished)
    else
      let u := (queue_get ep.active).1
      let t := ep.infected.getD u 0
      let ep := { ep with
        active := (queue_get ep.active).2
        dequeued := ep.dequeued ++ [(u, t)] }
      if ep.stop_criterion = Stopc.MaxTime ∧ ep.bound < t then
        (ep, RunResult.depthStop)
      else
        let r := run_arcs R ep u t (ep.g.out u)
        if r.2 then (r.1, RunResult.sizeStop)
        else epidemic_run R fuel r.1

/-- Number of nodes currently infected (`infectionTime > 0`). -/
def posCount (ep : Epidemic) : Nat :=
  ((Finset.range ep.g.n).filter (fun v => 0 < ep.infected.getD v 0)).card

/-! ### List helper lemmas -/

theorem getD_set_ne (l : List Nat) {i j : Nat} (a d : Nat) (h : i ≠ j) :
    (l.set i a).getD j d = l.getD j d := by
  simp [List.getD_eq_getElem?_getD, List.getElem?_set_ne h]

theorem getD_set_self (l : List Nat) {i : Nat} (a d : Nat) (h : i < l.length) :
    (l.set i a).getD i d = a := by
  simp [List.getD_eq_getElem?_getD, List.getElem?_set_self h]

theorem getD_replicate_lt {n i : Nat} (c d : Nat) (h : i < n) :
    (List.replicate n c).getD i d = c := by
  simp [List.getD_eq_getElem?_getD, List.getElem?_replicate, h]

theorem getD_pos_lt {l : List Nat} {v : Nat} (h : 0 < l.getD v 0) : v < l.length := by
  by_contra hc
  push_neg at hc
  rw [List.getD_eq_getElem?_getD, List.getElem?_eq_none hc] at h
  simp at h

theorem mod_small_cases {s x : Nat} (_hs : 0 < s) (hx : x < 2 * s) :
    x % s = if x < s then x else x - s := by
  split
  · exact Nat.mod_eq_of_lt ‹_›
  · have h1 : x - s < s := by omega
    have h2 : s ≤ x := by omega
    rw [Nat.mod_eq_sub_mod h2, Nat.mod_eq_of_lt h1]

/-! ### Ring buffer correctness -/

/-- Well-formedness of the frontier buffer of an epidemic over `n` nodes:
`queue_new n` allocates `n + 1` slots and the two cursors stay in range. -/
structure QWF (q : Queue) (n : Nat) : Prop where
  size_eq : q.size = n + 1
  begin_lt : q.begin < q.size
  qend_lt : q.qend < q.size
  nodes_len : q.nodes.length = q.size

theorem qwf_new (n : Nat) : QWF (queue_new n) n :=
  ⟨rfl, Nat.succ_pos n, Nat.succ_pos n, by simp [queue_new]⟩

theorem toList_new (n : Nat) : (queue_new n).toList = [] := by
  simp [queue_new, Queue.toList, Queue.count]

theorem toList_length (q : Queue) : q.toList.length = q.count := by
  simp [Queue.toList]

theorem count_le {q : Queue} {n : Nat} (h : QWF q n) : q.count ≤ n := by
  have h1 := h.size_eq; have h2 := h.begin_lt; have h3 := h.qend_lt
  unfold Queue.count
  split <;> omega

theorem queue_empty_iff {q : Queue} {n : Nat} (h : QWF q n) :
    queue_empty q = true ↔ q.count = 0 := by
  have h1 := h.size_eq; have h2 := h.begin_lt; have h3 := h.qend_lt
  simp only [queue_empty, beq_iff_eq, Queue.count]
  split <;> omega

theorem queue_empty_false_iff {q : Queue} {n : Nat} (h : QWF q n) :
    queue_empty q = false ↔ 0 < q.count := by
  constructor
  · intro he
    rcases Nat.eq_zero_or_pos q.count with h0 | h0
    · rw [← queue_empty_iff h] at h0
      simp [h0] at he
    · exact h0
  · intro hc
    cases hq : queue_empty q
    · rfl
    · rw [queue_empty_iff h] at hq
      omega

theorem queue_full_iff {q : Queue} {n : Nat} (h : QWF q n) :
    queue_full q = true ↔ q.count = n := by
  have h1 := h.size_eq; have h2 := h.begin_lt; have h3 := h.qend_lt
  have hm : (q.qend + 1) % q.size = if q.qend + 1 < q.size then q.qend + 1 else q.qend + 1 - q.size :=
    mod_small_cases (by omega) (by omega)
  simp only [queue_full, beq_iff_eq, Queue.count, hm]
  split <;> split <;> omega

theorem toList_empty_iff {q : Queue} {n : Nat} (h : QWF q n) :
    queue_empty q = true ↔ q.toList = [] := by
  rw [queue_empty_iff h, ← toList_length, List.length_eq_zero]

theorem queue_get_qwf {q : Queue} {n : Nat} (h : QWF q n) :
    QWF (queue_get q).2 n := by
  refine ⟨h.size_eq, ?_, h.qend_lt, h.nodes_len⟩
  have := h.begin_lt
  exact Nat.mod_lt _ (by omega)

theorem queue_get_count {q : Queue} {n : Nat} (h : QWF q n)
    (hne : queue_empty q = false) : (queue_get q).2.count = q.count - 1 := by
  have h1 := h.size_eq; have h2 := h.begin_lt; have h3 := h.qend_lt
  have hbne : q.begin ≠ q.qend := by
    intro hc
    simp [queue_empty, hc] at hne
  have hm : (q.begin + 1) % q.size =
      if q.begin + 1 < q.size then q.begin + 1 else q.begin + 1 - q.size :=
    mod_small_cases (by omega) (by omega)
  simp only [queue_get, Queue.count, hm]
  split <;> split <;> split <;> omega

theorem queue_get_toList {q : Queue} {n : Nat} (h : QWF q n)
    (hne : queue_empty q = false) :
    q.toList = (queue_get q).1 :: (queue_get q).2.toList := by
  have h1 := h.size_eq; have h2 := h.begin_lt; have h3 := h.qend_lt
  have hc : 0 < q.count := (queue_empty_false_iff h).mp hne
  have hsplit : q.count = (q.count - 1) + 1 := by omega
  have hhead : q.nodes.getD ((q.begin + 0) % q.size) 0 = (queue_get q).1 := by
    simp only [queue_get, Nat.add_zero]
    rw [Nat.mod_eq_of_lt h2]
  calc q.toList
      = (List.range ((q.count - 1) + 1)).map
          (fun i => q.nodes.getD ((q.begin + i) % q.size) 0) := by
        rw [Queue.toList, ← hsplit]
    _ = (queue_get q).1 :: (queue_get q).2.toList := by
        rw [List.range_succ_eq_map, List.map_cons, hhead, List.map_map]
        congr 1
        rw [Queue.toList, queue_get_count h hne]
        apply List.map_congr_left
        intro i _
        simp only [Function.comp_apply, queue_get]
        congr 1
        rw [Nat.mod_add_mod]
        congr 1
        omega

theorem queue_add_qwf {q : Queue} {n : Nat} (h : QWF q n) (e : Nat) :
    QWF (queue_add q e) n := by
  refine ⟨h.size_eq, h.begin_lt, ?_, ?_⟩
  · have := h.qend_lt
    exact Nat.mod_lt _ (by omega)
  · simp [queue_add, List.length_set, h.nodes_len]

theorem queue_add_count {q : Queue} {n : Nat} (h : QWF q n) (e : Nat)
    (hlt : q.count < n) : (queue_add q e).count = q.count + 1 := by
  have h1 := h.size_eq; have h2 := h.begin_lt; have h3 := h.qend_lt
  have hm : (q.qend + 1) % q.size =
      if q.qend + 1 < q.size then q.qend + 1 else q.qend + 1 - q.size :=
    mod_small_cases (by omega) (by omega)
  revert hlt
  simp only [queue_add, Queue.count, hm]
  split <;> split <;> split <;> omega

theorem queue_not_full {q : Queue} {n : Nat} (h : QWF q n)
    (hlt : q.count < n) : queue_full q = false := by
  cases hf : queue_full q
  · rfl
  · rw [queue_full_iff h] at hf
    omega

theorem begin_add_count_mod {q : Queue} {n : Nat} (h : QWF q n) :
    (q.begin + q.count) % q.size = q.qend := by
  have h1 := h.size_eq; have h2 := h.begin_lt; have h3 := h.qend_lt
  unfold Queue.count
  split
  · rw [Nat.mod_eq_of_lt (by omega)]
    omega
  · have : q.begin + (q.size + q.qend - q.begin) = q.size + q.qend := by omega
    rw [this, Nat.add_mod_left, Nat.mod_eq_of_lt h3]

theorem queue_add_toList {q : Queue} {n : Nat} (h : QWF q n) (e : Nat)
    (hlt : q.count < n) : (queue_add q e).toList = q.toList ++ [e] := by
  have h1 := h.size_eq; have h2 := h.begin_lt; have h3 := h.qend_lt
  have hq := begin_add_count_mod h
  have hpos : ∀ i, i < q.count → (q.begin + i) % q.size ≠ q.qend := by
    intro i hi hc
    rw [← hq] at hc
    rw [mod_small_cases (by omega) (by omega),
        mod_small_cases (by omega) (by have := count_le h; omega)] at hc
    revert hc
    split <;> split <;> omega
  have hcnt := queue_add_count h e hlt
  rw [Queue.toList, hcnt, List.range_succ, List.map_append]
  have hbeg : (queue_add q e).begin = q.begin := rfl
  have hsz : (queue_add q e).size = q.size := rfl
  have hnodes : (queue_add q e).nodes = q.nodes.set q.qend e := rfl
  congr 1
  · rw [Queue.toList]
    apply List.map_congr_left
    intro i hi
    rw [List.mem_range] at hi
    rw [hbeg, hsz, hnodes, getD_set_ne _ _ _ (fun hc => hpos i hi hc.symm)]
  · simp only [List.map_cons, List.map_nil, hbeg, hsz, hnodes, hq]
    rw [getD_set_self _ _ _ (by rw [h.nodes_len]; omega)]


/-! ### run_arc case analysis -/

theorem run_arc_skip {R : Nat → Bool} {ep : Epidemic} {u t v : Nat}
    (h : R ep.draws = false) :
    run_arc R ep u t v = ({ ep with draws := ep.draws + 1 }, false) := by
  simp only [run_arc]
  rw [h]
  simp

theorem run_arc_old {R : Nat → Bool} {ep : Epidemic} {u t v : Nat}
    (h : R ep.draws = true) (h0 : ¬ ep.infected.getD v 0 = 0) :
    run_arc R ep u t v =
      ({ ep with
          draws := ep.draws + 1
          cascade_links :=
            ep.cascade_links + (if ep.infected.getD v 0 = t + 1 then 1 else 0)
          trace := ep.trace ++ [(t, u, v, ep.id)] }, false) := by
  simp only [run_arc]
  rw [h]
  rw [if_pos rfl, if_neg h0]
  by_cases hco : ep.infected.getD v 0 = t + 1
  · rw [if_pos hco, if_pos hco]
    simp [emit]
  · rw [if_neg hco, if_neg hco]
    simp [emit]

theorem run_arc_fresh_go {R : Nat → Bool} {ep : Epidemic} {u t v : Nat}
    (h : R ep.draws = true) (h0 : ep.infected.getD v 0 = 0)
    (hc : ¬(ep.stop_criterion = Stopc.NumInfected ∧ ep.bound = ep.num_infected + 1)) :
    run_arc R ep u t v =
      ({ ep with
          draws := ep.draws + 1
          infected := ep.infected.set v (t + 1)
          overflow := ep.overflow || queue_full ep.active
          active := queue_add ep.active v
          num_infected := ep.num_infected + 1
          cascade_links := ep.cascade_links + 1
          t := t
          trace := ep.trace ++ [(t, u, v, ep.id)] }, false) := by
  simp only [run_arc]
  rw [h]
  rw [if_pos rfl, if_pos h0]
  dsimp only [epidemic_enqueue, emit]
  rw [if_neg hc]

theorem run_arc_fresh_stop {R : Nat → Bool} {ep : Epidemic} {u t v : Nat}
    (h : R ep.draws = true) (h0 : ep.infected.getD v 0 = 0)
    (hc : ep.stop_criterion = Stopc.NumInfected ∧ ep.bound = ep.num_infected + 1) :
    run_arc R ep u t v =
      ({ ep with
          draws := ep.draws + 1
          infected := ep.infected.set v (t + 1)
          overflow := ep.overflow || queue_full ep.active
          active := queue_add ep.active v
          num_infected := ep.num_infected + 1
          cascade_links := ep.cascade_links + 1
          t := t
          trace := ep.trace ++ [(t, u, v, ep.id)] }, true) := by
  simp only [run_arc]
  rw [h]
  rw [if_pos rfl, if_pos h0]
  dsimp only [epidemic_enqueue, emit]
  rw [if_pos hc]

/-- Case eliminator for one arc trial: failure, first infection (with the
MaxSize flag), or an already-infected target. -/
theorem run_arc_elim (R : Nat → Bool) (ep : Epidemic) (u t v : Nat)
    {motive : Epidemic × Bool → Prop}
    (hskip : R ep.draws = false → motive ({ ep with draws := ep.draws + 1 }, false))
    (hfresh : ∀ flag : Bool, R ep.draws = true → ep.infected.getD v 0 = 0 →
      (flag = true ↔ (ep.stop_criterion = Stopc.NumInfected ∧
        ep.bound = ep.num_infected + 1)) →
      motive ({ ep with
          draws := ep.draws + 1
          infected := ep.infected.set v (t + 1)
          overflow := ep.overflow || queue_full ep.active
          active := queue_add ep.active v
          num_infected := ep.num_infected + 1
          cascade_links := ep.cascade_links + 1
          t := t
          trace := ep.trace ++ [(t, u, v, ep.id)] }, flag))
    (hold : R ep.draws = true → ep.infected.getD v 0 ≠ 0 →
      motive ({ ep with
          draws := ep.draws + 1
          cascade_links :=
            ep.cascade_links + (if ep.infected.getD v 0 = t + 1 then 1 else 0)
          trace := ep.trace ++ [(t, u, v, ep.id)] }, false)) :
    motive (run_arc R ep u t v) := by
  cases hR : R ep.draws
  · rw [run_arc_skip hR]
    exact hskip hR
  · by_cases h0 : ep.infected.getD v 0 = 0
    · by_cases hc : ep.stop_criterion = Stopc.NumInfected ∧
        ep.bound = ep.num_infected + 1
      · rw [run_arc_fresh_stop hR h0 hc]
        exact hfresh true hR h0 (by simp [hc])
      · rw [run_arc_fresh_go hR h0 hc]
        exact hfresh false hR h0 (by simp [hc])
    · rw [run_arc_old hR h0]
      exact hold hR h0

theorem run_arc_frame (R : Nat → Bool) (ep : Epidemic) (u t v : Nat) :
    (run_arc R ep u t v).1.stop_criterion = ep.stop_criterion ∧
    (run_arc R ep u t v).1.bound = ep.bound ∧
    (run_arc R ep u t v).1.g = ep.g ∧
    (run_arc R ep u t v).1.id = ep.id ∧
    (run_arc R ep u t v).1.dequeued = ep.dequeued := by
  refine run_arc_elim (motive := fun r =>
      r.1.stop_criterion = ep.stop_criterion ∧ r.1.bound = ep.bound ∧
      r.1.g = ep.g ∧ r.1.id = ep.id ∧ r.1.dequeued = ep.dequeued)
    R ep u t v ?_ ?_ ?_ <;> intros <;> exact ⟨rfl, rfl, rfl, rfl, rfl⟩

theorem run_arcs_cons (R : Nat → Bool) (ep : Epidemic) (u t v : Nat)
    (vs : List Nat) :
    run_arcs R ep u t (v :: vs) =
      if (run_arc R ep u t v).2 = true then ((run_arc R ep u t v).1, true)
      else run_arcs R (run_arc R ep u t v).1 u t vs := rfl

theorem run_arcs_frame (R : Nat → Bool) (u t : Nat) (vs : List Nat)
    (ep : Epidemic) :
    (run_arcs R ep u t vs).1.stop_criterion = ep.stop_criterion ∧
    (run_arcs R ep u t vs).1.bound = ep.bound ∧
    (run_arcs R ep u t vs).1.g = ep.g ∧
    (run_arcs R ep u t vs).1.id = ep.id ∧
    (run_arcs R ep u t vs).1.dequeued = ep.dequeued := by
  induction vs generalizing ep with
  | nil => exact ⟨rfl, rfl, rfl, rfl, rfl⟩
  | cons v vs ih =>
    rw [run_arcs_cons]
    have hf := run_arc_frame R ep u t v
    cases hb : (run_arc R ep u t v).2
    · rw [if_neg (by simp)]
      have := ih (run_arc R ep u t v).1
      exact ⟨by rw [this.1, hf.1], by rw [this.2.1, hf.2.1],
        by rw [this.2.2.1, hf.2.2.1], by rw [this.2.2.2.1, hf.2.2.2.1],
        by rw [this.2.2.2.2, hf.2.2.2.2]⟩
    · rw [if_pos rfl]
      exact hf

/-! ### epidemic_run unfolding -/

theorem epidemic_run_empty {R : Nat → Bool} {fuel : Nat} {ep : Epidemic}
    (h : queue_empty ep.active = true) :
    epidemic_run R (fuel + 1) ep = (ep, RunResult.finished) := by
  rw [epidemic_run.eq_2, if_pos h]

theorem epidemic_run_depthStop {R : Nat → Bool} {fuel : Nat} {ep : Epidemic}
    (hne : queue_empty ep.active = false)
    (hst : ep.stop_criterion = Stopc.MaxTime)
    (hbt : ep.bound < ep.infected.getD (queue_get ep.active).1 0) :
    epidemic_run R (fuel + 1) ep =
      ({ ep with
          active := (queue_get ep.active).2
          dequeued := ep.dequeued ++
            [((queue_get ep.active).1,
              ep.infected.getD (queue_get ep.active).1 0)] },
        RunResult.depthStop) := by
  rw [epidemic_run.eq_2, if_neg (by simp [hne])]
  dsimp only
  rw [if_pos ⟨hst, hbt⟩]

theorem epidemic_run_go {R : Nat → Bool} {fuel : Nat} {ep : Epidemic}
    (hne : queue_empty ep.active = false)
    (hnst : ¬(ep.stop_criterion = Stopc.MaxTime ∧
      ep.bound < ep.infected.getD (queue_get ep.active).1 0)) :
    epidemic_run R (fuel + 1) ep =
      (let u := (queue_get ep.active).1
       let t := ep.infected.getD u 0
       let ep' : Epidemic := { ep with
         active := (queue_get ep.active).2
         dequeued := ep.dequeued ++ [(u, t)] }
       let r := run_arcs R ep' u t (ep'.g.out u)
       if r.2 then (r.1, RunResult.sizeStop) else epidemic_run R fuel r.1) := by
  rw [epidemic_run.eq_2, if_neg (by simp [hne])]
  dsimp only
  rw [if_neg hnst]

/-! ### Abbreviations for one outer-loop iteration -/

/-- `u = queue_get(epidemic->active)`: the provider dequeued next. -/
def headNode (ep : Epidemic) : Nat := (queue_get ep.active).1

/-- `t = epidemic->infected[u]`: the step at which the provider transmits. -/
def headTime (ep : Epidemic) : Nat := ep.infected.getD (headNode ep) 0

/-- The state right after the dequeue at the top of the `while` loop. -/
def deq (ep : Epidemic) : Epidemic :=
  { ep with
    active := (queue_get ep.active).2
    dequeued := ep.dequeued ++ [(headNode ep, headTime ep)] }

/-- The whole inner `for` loop of one outer iteration. -/
def stepArcs (R : Nat → Bool) (ep : Epidemic) : Epidemic × Bool :=
  run_arcs R (deq ep) (headNode ep) (headTime ep) ((deq ep).g.out (headNode ep))

theorem epidemic_run_depthStop' {R : Nat → Bool} {fuel : Nat} {ep : Epidemic}
    (hne : queue_empty ep.active = false)
    (hst : ep.stop_criterion = Stopc.MaxTime) (hbt : ep.bound < headTime ep) :
    epidemic_run R (fuel + 1) ep = (deq ep, RunResult.depthStop) :=
  epidemic_run_depthStop hne hst hbt

theorem epidemic_run_go' {R : Nat → Bool} {fuel : Nat} {ep : Epidemic}
    (hne : queue_empty ep.active = false)
    (hnst : ¬(ep.stop_criterion = Stopc.MaxTime ∧ ep.bound < headTime ep)) :
    epidemic_run R (fuel + 1) ep =
      if (stepArcs R ep).2 then ((stepArcs R ep).1, RunResult.sizeStop)
      else epidemic_run R fuel (stepArcs R ep).1 :=
  epidemic_run_go hne hnst

/-- Generic preservation principle over a run: a property preserved by the
dequeue and by the inner loop holds of every state the fuel-indexed run
can return. -/
theorem epidemic_run_preserves {R : Nat → Bool} {P : Epidemic → Prop}
    (hdeq : ∀ ep, queue_empty ep.active = false → P ep →
      ep.stop_criterion = Stopc.MaxTime → ep.bound < headTime ep → P (deq ep))
    (hstep : ∀ ep, queue_empty ep.active = false → P ep →
      ¬(ep.stop_criterion = Stopc.MaxTime ∧ ep.bound < headTime ep) →
      P (stepArcs R ep).1) :
    ∀ fuel ep, P ep → P (epidemic_run R fuel ep).1 := by
  intro fuel
  induction fuel with
  | zero => exact fun ep h => h
  | succ fuel ih =>
    intro ep hP
    cases hqe : queue_empty ep.active
    · by_cases hs : ep.stop_criterion = Stopc.MaxTime ∧ ep.bound < headTime ep
      · rw [epidemic_run_depthStop' hqe hs.1 hs.2]
        exact hdeq ep hqe hP hs.1 hs.2
      · rw [epidemic_run_go' hqe hs]
        cases hflag : (stepArcs R ep).2
        · rw [if_neg (by simp)]
          exact ih _ (hstep ep hqe hP hs)
        · rw [if_pos rfl]
          exact hstep ep hqe hP hs
    · rw [epidemic_run_empty hqe]
      exact hP

/-- Compact form of one `go` iteration that continues: the inner loop did
not flag the MaxSize return. -/
theorem epidemic_run_go_cont {R : Nat → Bool} {f : Nat} {e e' : Epidemic}
    (hstep : stepArcs R e = (e', false))
    (hne : queue_empty e.active = false)
    (hnst : ¬(e.stop_criterion = Stopc.MaxTime ∧ e.bound < headTime e)) :
    epidemic_run R (f + 1) e = epidemic_run R f e' := by
  rw [epidemic_run_go' hne hnst, hstep]
  simp

/-- Compact form of one `go` iteration that ends the run through the
MaxSize `return`. -/
theorem epidemic_run_go_stop {R : Nat → Bool} {f : Nat} {e e' : Epidemic}
    (hstep : stepArcs R e = (e', true))
    (hne : queue_empty e.active = false)
    (hnst : ¬(e.stop_criterion = Stopc.MaxTime ∧ e.bound < headTime e)) :
    epidemic_run R (f + 1) e = (e', RunResult.sizeStop) := by
  rw [epidemic_run_go' hne hnst, hstep]
  simp

/-! ### Concrete test fixtures from the spec scenarios

The runs used by the concrete claims are evaluated once and for all by
stepping through explicit intermediate states, one small `rfl` per outer
iteration. -/

/-- Line graph with arcs 0→1→2→3→4 (spec scenario 1). -/
def lineG : graph := ⟨5, [[1], [2], [3], [4], []]⟩

/-- Triangle with arcs 0→1, 0→2, 1→2 (spec scenario 4). -/
def triG : graph := ⟨3, [[1, 2], [2], []]⟩

/-- Star with center 0 and arcs to 1..4 (spec scenario 3). -/
def starG : graph := ⟨5, [[1, 2, 3, 4], [], [], [], []]⟩

/-- The trial oracle for p = 1: every Bernoulli trial succeeds. -/
def allSucc : Nat → Bool := fun _ => true

/-- Line run, state after construction (any epidemic id `x`). -/
def lineE0 (x : Int) : Epidemic :=
  { id := x, t := 1, num_infected := 1, cascade_links := 0, bound := 2
    stop_criterion := Stopc.MaxTime, g := lineG, infected := [1, 0, 0, 0, 0]
    active := ⟨6, 0, 1, [0, 0, 0, 0, 0, 0]⟩, trace := [], draws := 0
    dequeued := [], overflow := false }

/-- Line run, state after processing provider 0. -/
def lineE1 (x : Int) : Epidemic :=
  { id := x, t := 1, num_infected := 2, cascade_links := 1, bound := 2
    stop_criterion := Stopc.MaxTime, g := lineG, infected := [1, 2, 0, 0, 0]
    active := ⟨6, 1, 2, [0, 1, 0, 0, 0, 0]⟩, trace := [(1, 0, 1, x)], draws := 1
    dequeued := [(0, 1)], overflow := false }

/-- Line run, state after processing provider 1. -/
def lineE2 (x : Int) : Epidemic :=
  { id := x, t := 2, num_infected := 3, cascade_links := 2, bound := 2
    stop_criterion := Stopc.MaxTime, g := lineG, infected := [1, 2, 3, 0, 0]
    active := ⟨6, 2, 3, [0, 1, 2, 0, 0, 0]⟩
    trace := [(1, 0, 1, x), (2, 1, 2, x)], draws := 2
    dequeued := [(0, 1), (1, 2)], overflow := false }

/-- Line run, final state: node 2 was dequeued at time 3 > bound. -/
def lineE3 (x : Int) : Epidemic :=
  { id := x, t := 2, num_infected := 3, cascade_links := 2, bound := 2
    stop_criterion := Stopc.MaxTime, g := lineG, infected := [1, 2, 3, 0, 0]
    active := ⟨6, 3, 3, [0, 1, 2, 0, 0, 0]⟩
    trace := [(1, 0, 1, x), (2, 1, 2, x)], draws := 2
    dequeued := [(0, 1), (1, 2), (2, 3)], overflow := false }

theorem line_new (x : Int) :
    epidemic_new lineG ⟨x, [0], 2, Stopc.MaxTime⟩ = lineE0 x := rfl

theorem line_step0 (x : Int) : stepArcs allSucc (lineE0 x) = (lineE1 x, false) := rfl

theorem line_step1 (x : Int) : stepArcs allSucc (lineE1 x) = (lineE2 x, false) := rfl

/-- The whole line-graph run, for every epidemic id. -/
theorem line_run (x : Int) :
    epidemic_run allSucc 3 (epidemic_new lineG ⟨x, [0], 2, Stopc.MaxTime⟩) =
      (lineE3 x, RunResult.depthStop) :=
  calc epidemic_run allSucc 3 (epidemic_new lineG ⟨x, [0], 2, Stopc.MaxTime⟩)
      = epidemic_run allSucc (2 + 1) (lineE0 x) := by rw [line_new]
    _ = epidemic_run allSucc (1 + 1) (lineE1 x) :=
        epidemic_run_go_cont (line_step0 x) rfl (by
          show ¬(Stopc.MaxTime = Stopc.MaxTime ∧ 2 < 1); decide)
    _ = epidemic_run allSucc (0 + 1) (lineE2 x) :=
        epidemic_run_go_cont (line_step1 x) rfl (by
          show ¬(Stopc.MaxTime = Stopc.MaxTime ∧ 2 < 2); decide)
    _ = (lineE3 x, RunResult.depthStop) := by
        have h : epidemic_run allSucc (0 + 1) (lineE2 x) =
            (deq (lineE2 x), RunResult.depthStop) :=
          epidemic_run_depthStop' rfl rfl (by show 2 < 3; decide)
        exact h.trans rfl

/-- Triangle run, state after construction. -/
def triE0 : Epidemic :=
  { id := 5, t := 1, num_infected := 1, cascade_links := 0, bound := 10
    stop_criterion := Stopc.MaxTime, g := triG, infected := [1, 0, 0]
    active := ⟨4, 0, 1, [0, 0, 0, 0]⟩, trace := [], draws := 0
    dequeued := [], overflow := false }

/-- Triangle run, state after processing provider 0 (both trials infect). -/
def triE1 : Epidemic :=
  { id := 5, t := 1, num_infected := 3, cascade_links := 2, bound := 10
    stop_criterion := Stopc.MaxTime, g := triG, infected := [1, 2, 2]
    active := ⟨4, 1, 3, [0, 1, 2, 0]⟩, trace := [(1, 0, 1, 5), (1, 0, 2, 5)]
    draws := 2, dequeued := [(0, 1)], overflow := false }

/-- Triangle run, state after processing provider 1: the trial 1→2 finds
node 2 already infected at step 2 ≠ t + 1 = 3, so no link is counted. -/
def triE2 : Epidemic :=
  { id := 5, t := 1, num_infected := 3, cascade_links := 2, bound := 10
    stop_criterion := Stopc.MaxTime, g := triG, infected := [1, 2, 2]
    active := ⟨4, 2, 3, [0, 1, 2, 0]⟩
    trace := [(1, 0, 1, 5), (1, 0, 2, 5), (2, 1, 2, 5)]
    draws := 3, dequeued := [(0, 1), (1, 2)], overflow := false }

/-- Triangle run, final state after processing provider 2 (no arcs). -/
def triE3 : Epidemic :=
  { id := 5, t := 1, num_infected := 3, cascade_links := 2, bound := 10
    stop_criterion := Stopc.MaxTime, g := triG, infected := [1, 2, 2]
    active := ⟨4, 3, 3, [0, 1, 2, 0]⟩
    trace := [(1, 0, 1, 5), (1, 0, 2, 5), (2, 1, 2, 5)]
    draws := 3, dequeued := [(0, 1), (1, 2), (2, 2)], overflow := false }

theorem tri_new : epidemic_new triG ⟨5, [0], 10, Stopc.MaxTime⟩ = triE0 := rfl

theorem tri_step0 : stepArcs allSucc triE0 = (triE1, false) := rfl

theorem tri_step1 : stepArcs allSucc triE1 = (triE2, false) := rfl

theorem tri_step2 : stepArcs allSucc triE2 = (triE3, false) := rfl

/-- The whole triangle run. -/
theorem tri_run :
    epidemic_run allSucc 4 (epidemic_new triG ⟨5, [0], 10, Stopc.MaxTime⟩) =
      (triE3, RunResult.finished) :=
  calc epidemic_run allSucc 4 (epidemic_new triG ⟨5, [0], 10, Stopc.MaxTime⟩)
      = epidemic_run allSucc (3 + 1) triE0 := by rw [tri_new]
    _ = epidemic_run allSucc (2 + 1) triE1 :=
        epidemic_run_go_cont tri_step0 rfl (by
          show ¬(Stopc.MaxTime = Stopc.MaxTime ∧ 10 < 1); decide)
    _ = epidemic_run allSucc (1 + 1) triE2 :=
        epidemic_run_go_cont tri_step1 rfl (by
          show ¬(Stopc.MaxTime = Stopc.MaxTime ∧ 10 < 2); decide)
    _ = epidemic_run allSucc (0 + 1) triE3 :=
        epidemic_run_go_cont tri_step2 rfl (by
          show ¬(Stopc.MaxTime = Stopc.MaxTime ∧ 10 < 2); decide)
    _ = (triE3, RunResult.finished) := epidemic_run_empty rfl

/-- MaxSize star run (bound 3), state after construction. -/
def s3E0 : Epidemic :=
  { id := 9, t := 1, num_infected := 1, cascade_links := 0, bound := 3
    stop_criterion := Stopc.NumInfected, g := starG
    infected := [1, 0, 0, 0, 0], active := ⟨6, 0, 1, [0, 0, 0, 0, 0, 0]⟩
    trace := [], draws := 0, dequeued := [], overflow := false }

/-- MaxSize star run (bound 3), final state: the trial 0→2 raises
`numInfected` to the bound and the inner loop flags the return. -/
def s3E1 : Epidemic :=
  { id := 9, t := 1, num_infected := 3, cascade_links := 2, bound := 3
    stop_criterion := Stopc.NumInfected, g := starG
    infected := [1, 2, 2, 0, 0], active := ⟨6, 1, 3, [0, 1, 2, 0, 0, 0]⟩
    trace := [(1, 0, 1, 9), (1, 0, 2, 9)], draws := 2
    dequeued := [(0, 1)], overflow := false }

theorem star3_new : epidemic_new starG ⟨9, [0], 3, Stopc.NumInfected⟩ = s3E0 := rfl

theorem star3_step0 : stepArcs allSucc s3E0 = (s3E1, true) := rfl

/-- The whole MaxSize star run with bound 3. -/
theorem star3_run :
    epidemic_run allSucc 1 (epidemic_new starG ⟨9, [0], 3, Stopc.NumInfected⟩) =
      (s3E1, RunResult.sizeStop) :=
  calc epidemic_run allSucc 1 (epidemic_new starG ⟨9, [0], 3, Stopc.NumInfected⟩)
      = epidemic_run allSucc (0 + 1) s3E0 := by rw [star3_new]
    _ = (s3E1, RunResult.sizeStop) :=
        epidemic_run_go_stop star3_step0 rfl (by
          show ¬(Stopc.NumInfected = Stopc.MaxTime ∧ 3 < 1); decide)

/-- MaxSize star run (bound 1), state after construction. -/
def s1E0 : Epidemic :=
  { id := 9, t := 1, num_infected := 1, cascade_links := 0, bound := 1
    stop_criterion := Stopc.NumInfected, g := starG
    infected := [1, 0, 0, 0, 0], active := ⟨6, 0, 1, [0, 0, 0, 0, 0, 0]⟩
    trace := [], draws := 0, dequeued := [], overflow := false }

/-- MaxSize star run (bound 1), state after processing the center: all
four leaves infected, the size check (made only after an increment, at
counts 2..5) never matches bound 1. -/
def s1E1 : Epidemic :=
  { id := 9, t := 1, num_infected := 5, cascade_links := 4, bound := 1
    stop_criterion := Stopc.NumInfected, g := starG
    infected := [1, 2, 2, 2, 2], active := ⟨6, 1, 5, [0, 1, 2, 3, 4, 0]⟩
    trace := [(1, 0, 1, 9), (1, 0, 2, 9), (1, 0, 3, 9), (1, 0, 4, 9)]
    draws := 4, dequeued := [(0, 1)], overflow := false }

/-- Bound-1 star run after draining leaf 1. -/
def s1E2 : Epidemic :=
  { s1E1 with
    active := ⟨6, 2, 5, [0, 1, 2, 3, 4, 0]⟩
    dequeued := [(0, 1), (1, 2)] }

/-- Bound-1 star run after draining leaf 2. -/
def s1E3 : Epidemic :=
  { s1E1 with
    active := ⟨6, 3, 5, [0, 1, 2, 3, 4, 0]⟩
    dequeued := [(0, 1), (1, 2), (2, 2)] }

/-- Bound-1 star run after draining leaf 3. -/
def s1E4 : Epidemic :=
  { s1E1 with
    active := ⟨6, 4, 5, [0, 1, 2, 3, 4, 0]⟩
    dequeued := [(0, 1), (1, 2), (2, 2), (3, 2)] }

/-- Bound-1 star run, final state: frontier drained, numInfected = 5. -/
def s1E5 : Epidemic :=
  { s1E1 with
    active := ⟨6, 5, 5, [0, 1, 2, 3, 4, 0]⟩
    dequeued := [(0, 1), (1, 2), (2, 2), (3, 2), (4, 2)] }

theorem star1_new : epidemic_new starG ⟨9, [0], 1, Stopc.NumInfected⟩ = s1E0 := rfl

theorem star1_step0 : stepArcs allSucc s1E0 = (s1E1, false) := rfl

theorem star1_step1 : stepArcs allSucc s1E1 = (s1E2, false) := rfl

theorem star1_step2 : stepArcs allSucc s1E2 = (s1E3, false) := rfl

theorem star1_step3 : stepArcs allSucc s1E3 = (s1E4, false) := rfl

theorem star1_step4 : stepArcs allSucc s1E4 = (s1E5, false) := rfl

/-- The whole bound-1 star run: it ends by draining the frontier. -/
theorem star1_run :
    epidemic_run allSucc 6 (epidemic_new starG ⟨9, [0], 1, Stopc.NumInfected⟩) =
      (s1E5, RunResult.finished) :=
  calc epidemic_run allSucc 6 (epidemic_new starG ⟨9, [0], 1, Stopc.NumInfected⟩)
      = epidemic_run allSucc (5 + 1) s1E0 := by rw [star1_new]
    _ = epidemic_run allSucc (4 + 1) s1E1 :=
        epidemic_run_go_cont star1_step0 rfl (by
          show ¬(Stopc.NumInfected = Stopc.MaxTime ∧ 1 < 1); decide)
    _ = epidemic_run allSucc (3 + 1) s1E2 :=
        epidemic_run_go_cont star1_step1 rfl (by
          show ¬(Stopc.NumInfected = Stopc.MaxTime ∧ 1 < 2); decide)
    _ = epidemic_run allSucc (2 + 1) s1E3 :=
        epidemic_run_go_cont star1_step2 rfl (by
          show ¬(Stopc.NumInfected = Stopc.MaxTime ∧ 1 < 2); decide)
    _ = epidemic_run allSucc (1 + 1) s1E4 :=
        epidemic_run_go_cont star1_step3 rfl (by
          show ¬(Stopc.NumInfected = Stopc.MaxTime ∧ 1 < 2); decide)
    _ = epidemic_run allSucc (0 + 1) s1E5 :=
        epidemic_run_go_cont star1_step4 rfl (by
          show ¬(Stopc.NumInfected = Stopc.MaxTime ∧ 1 < 2); decide)
    _ = (s1E5, RunResult.finished) := epidemic_run_empty rfl

/-- A hand-built reachable state whose frontier head was infected at step
3 while the MaxDepth bound is 2: node 2 is active, `infected = [1,2,3,0,0]`. -/
def epAtBound : Epidemic :=
  { id := 3, t := 2, num_infected := 3, cascade_links := 2, bound := 2
    stop_criterion := Stopc.MaxTime, g := lineG, infected := [1, 2, 3, 0, 0]
    active := ⟨6, 0, 1, [2, 0, 0, 0, 0, 0]⟩
    trace := [(1, 0, 1, 3), (2, 1, 2, 3)], draws := 2, dequeued := [(0, 1), (1, 2)]
    overflow := false }

/-- C3: on the line graph 0→1→2→3→4 with seed {0}, p = 1, stop = MaxDepth,
bound = 2, the run ends with infectionTime = [1,2,3,0,0], numInfected = 3,
and exactly the two trace records (1,0,1,id) then (2,1,2,id), in that
order (and it ends through the MaxDepth rule, not fuel exhaustion). -/
theorem C3_line_graph_run (id : Int) :
    (epidemic_run allSucc 3 (epidemic_new lineG ⟨id, [0], 2, Stopc.MaxTime⟩)).1.infected
        = [1, 2, 3, 0, 0] ∧
    (epidemic_run allSucc 3 (epidemic_new lineG ⟨id, [0], 2, Stopc.MaxTime⟩)).1.num_infected
        = 3 ∧
    (epidemic_run allSucc 3 (epidemic_new lineG ⟨id, [0], 2, Stopc.MaxTime⟩)).1.trace
        = [(1, 0, 1, id), (2, 1, 2, id)] ∧
    (epidemic_run allSucc 3 (epidemic_new lineG ⟨id, [0], 2, Stopc.MaxTime⟩)).2
        = RunResult.depthStop := by
  rw [line_run id]
  exact ⟨rfl, rfl, rfl, rfl⟩

/-- C5: with stop = MaxDepth, if the dequeued node's infection time
exceeds the bound, the whole run returns immediately: no trial is drawn,
no trace record is emitted, nothing further is dequeued, and the state is
exactly the state at the moment of the dequeue (only `active` lost its
head; the ghost `dequeued` log records the observation). -/
theorem C5_maxdepth_early_exit (R : Nat → Bool) (fuel : Nat) (ep : Epidemic)
    (hne : queue_empty ep.active = false)
    (hst : ep.stop_criterion = Stopc.MaxTime)
    (hbt : ep.bound < headTime ep) :
    epidemic_run R (fuel + 1) ep =
      ({ ep with
          active := (queue_get ep.active).2
          dequeued := ep.dequeued ++ [(headNode ep, headTime ep)] },
        RunResult.depthStop) :=
  epidemic_run_depthStop hne hst hbt

/-- Witness for C5 at a concrete state: frontier head 2 has infection
time 3 > bound 2 and the run returns at once with everything else
untouched. -/
theorem C5_witness :
    queue_empty epAtBound.active = false ∧
    epAtBound.stop_criterion = Stopc.MaxTime ∧
    epAtBound.bound < headTime epAtBound ∧
    epidemic_run allSucc (4 + 1) epAtBound =
      ({ epAtBound with
          active := (queue_get epAtBound.active).2
          dequeued := epAtBound.dequeued ++ [(headNode epAtBound, headTime epAtBound)] },
        RunResult.depthStop) :=
  ⟨by decide, by decide, by decide,
    C5_maxdepth_early_exit allSucc 4 epAtBound (by decide) (by decide) (by decide)⟩

/-- C1 (amended): one arc trial increments `cascadeLinks` exactly once
when it succeeds and first-infects its target, exactly once when it
succeeds and the target is already infected with time t + 1, and never
otherwise; on the triangle 0→1, 0→2, 1→2 with seed {0}, p = 1,
stop = MaxDepth, bound = 10, the run ends with cascadeLinks = 2 (the
trial 1→2 finds infectionTime 2 ≠ t + 1 = 3, an earlier step). -/
theorem C1_cascade_links_rule :
    (∀ (R : Nat → Bool) (ep : Epidemic) (u t v : Nat),
      (run_arc R ep u t v).1.cascade_links =
        ep.cascade_links +
          (if R ep.draws then
            (if ep.infected.getD v 0 = 0 then 1
             else if ep.infected.getD v 0 = t + 1 then 1 else 0)
           else 0)) ∧
    (epidemic_run allSucc 4 (epidemic_new triG ⟨5, [0], 10, Stopc.MaxTime⟩)).1.cascade_links
      = 2 ∧
    (epidemic_run allSucc 4 (epidemic_new triG ⟨5, [0], 10, Stopc.MaxTime⟩)).2
      = RunResult.finished := by
  refine ⟨?_, by rw [tri_run]; rfl, by rw [tri_run]⟩
  intro R ep u t v
  refine run_arc_elim (motive := fun r =>
      r.1.cascade_links = ep.cascade_links +
        (if R ep.draws then
          (if ep.infected.getD v 0 = 0 then 1
           else if ep.infected.getD v 0 = t + 1 then 1 else 0)
         else 0)) R ep u t v ?_ ?_ ?_
  · intro hR
    rw [hR]
    simp
  · intro flag hR h0 _
    rw [hR, h0]
    simp
  · intro hR h0
    rw [hR]
    rw [if_neg h0]
    simp

/-- Counterexample to C1 as stated: the triangle run ends with
cascadeLinks = 2, not 3. -/
theorem C1_counterexample :
    (epidemic_run allSucc 4 (epidemic_new triG ⟨5, [0], 10, Stopc.MaxTime⟩)).1.cascade_links
        = 2 ∧
    ¬ (epidemic_run allSucc 4 (epidemic_new triG ⟨5, [0], 10, Stopc.MaxTime⟩)).1.cascade_links
        = 3 := by
  rw [tri_run]
  exact ⟨rfl, by decide⟩

/-! ### Construction: epidemic_new -/

theorem getD_replicate_zero (n w : Nat) : (List.replicate n 0).getD w 0 = 0 := by
  by_cases h : w < n
  · exact getD_replicate_lt 0 0 h
  · rw [List.getD_eq_getElem?_getD, List.getElem?_eq_none (by simp; omega)]
    rfl

/-- Fields of the epidemic that the seed loop of `epidemic_new` never
touches. -/
theorem foldl_seed_frame (seeds : List Nat) : ∀ ep : Epidemic,
    (List.foldl epidemic_seed ep seeds).num_infected = ep.num_infected ∧
    (List.foldl epidemic_seed ep seeds).stop_criterion = ep.stop_criterion ∧
    (List.foldl epidemic_seed ep seeds).bound = ep.bound ∧
    (List.foldl epidemic_seed ep seeds).g = ep.g ∧
    (List.foldl epidemic_seed ep seeds).id = ep.id ∧
    (List.foldl epidemic_seed ep seeds).t = ep.t ∧
    (List.foldl epidemic_seed ep seeds).cascade_links = ep.cascade_links ∧
    (List.foldl epidemic_seed ep seeds).trace = ep.trace ∧
    (List.foldl epidemic_seed ep seeds).draws = ep.draws ∧
    (List.foldl epidemic_seed ep seeds).dequeued = ep.dequeued ∧
    (List.foldl epidemic_seed ep seeds).infected.length = ep.infected.length := by
  induction seeds with
  | nil => intro ep; exact ⟨rfl, rfl, rfl, rfl, rfl, rfl, rfl, rfl, rfl, rfl, rfl⟩
  | cons s rest ih =>
    intro ep
    have h := ih (epidemic_seed ep s)
    simpa [epidemic_seed, epidemic_enqueue, List.length_set] using h

/-- The seed loop of `epidemic_new` as list operations: as long as at most
`n` seeds are loaded into the fresh `n + 1`-slot ring, the full-buffer
assert never fires and the frontier ends up holding exactly the seed list. -/
theorem foldl_seed_spec (n : Nat) (seeds : List Nat) : ∀ ep : Epidemic,
    ep.active.size = n + 1 → ep.active.begin = 0 →
    ep.active.nodes.length = n + 1 →
    ep.active.qend + seeds.length ≤ n → ep.overflow = false →
    (List.foldl epidemic_seed ep seeds).overflow = false ∧
    (List.foldl epidemic_seed ep seeds).active.size = n + 1 ∧
    (List.foldl epidemic_seed ep seeds).active.begin = 0 ∧
    (List.foldl epidemic_seed ep seeds).active.nodes.length = n + 1 ∧
    (List.foldl epidemic_seed ep seeds).active.qend =
      ep.active.qend + seeds.length ∧
    (List.foldl epidemic_seed ep seeds).active.toList =
      ep.active.toList ++ seeds ∧
    (∀ w, w < ep.infected.length →
      (List.foldl epidemic_seed ep seeds).infected.getD w 0 =
        if w ∈ seeds then 1 else ep.infected.getD w 0) := by
  induction seeds with
  | nil =>
    intro ep h1 h2 h3 _ h5
    refine ⟨h5, h1, h2, h3, rfl, by simp, ?_⟩
    intro w _
    simp
  | cons s rest ih =>
    intro ep h1 h2 h3 h4 h5
    have hlen : rest.length + 1 = (s :: rest).length := by simp
    have hwf : QWF ep.active n := ⟨h1, by omega, by omega, by rw [h3, h1]⟩
    have hcnt : ep.active.count = ep.active.qend := by
      unfold Queue.count
      rw [h2]
      simp
    have hlt : ep.active.count < n := by
      simp at h4
      omega
    have hqend : (queue_add ep.active s).qend = ep.active.qend + 1 := by
      show (ep.active.qend + 1) % ep.active.size = ep.active.qend + 1
      rw [h1]
      exact Nat.mod_eq_of_lt (by simp at h4; omega)
    have hstep : List.foldl epidemic_seed ep (s :: rest) =
        List.foldl epidemic_seed (epidemic_seed ep s) rest := rfl
    have hactive : (epidemic_seed ep s).active = queue_add ep.active s := rfl
    have hovf : (epidemic_seed ep s).overflow = false := by
      show (ep.overflow || queue_full ep.active) = false
      rw [h5, queue_not_full hwf hlt]
      rfl
    have hinfset : (epidemic_seed ep s).infected = ep.infected.set s 1 := rfl
    have h := ih (epidemic_seed ep s)
      (by rw [hactive]; exact h1)
      (by rw [hactive]; exact h2)
      (by rw [hactive]; show (ep.active.nodes.set ep.active.qend s).length = n + 1
          rw [List.length_set]; exact h3)
      (by rw [hactive, hqend]; simp at h4; omega)
      hovf
    rw [hstep]
    refine ⟨h.1, h.2.1, h.2.2.1, h.2.2.2.1, ?_, ?_, ?_⟩
    · rw [h.2.2.2.2.1, hactive, hqend]
      omega
    · rw [h.2.2.2.2.2.1, hactive, queue_add_toList hwf s hlt]
      simp
    · intro w hw
      have hw' : w < (epidemic_seed ep s).infected.length := by
        rw [hinfset, List.length_set]
        exact hw
      rw [h.2.2.2.2.2.2 w hw', hinfset]
      by_cases hws : w = s
      · subst hws
        rw [getD_set_self _ _ _ hw]
        by_cases hmem : w ∈ rest <;> simp [hmem]
      · rw [getD_set_ne _ _ _ (fun hc => hws hc.symm)]
        by_cases hmem : w ∈ rest <;> simp [hmem, hws]

/-- What `epidemic_new` builds when at most `n` seeds are supplied
(distinct or not): no assert fires, the frontier is exactly the seed
list in input order, seeds carry infection time 1 and everything else 0. -/
theorem epidemic_new_spec (g : graph) (ic : InitialCondition)
    (hk : ic.infected.length ≤ g.n) :
    (epidemic_new g ic).overflow = false ∧
    (epidemic_new g ic).active.toList = ic.infected ∧
    QWF (epidemic_new g ic).active g.n ∧
    (epidemic_new g ic).infected.length = g.n ∧
    (∀ w, (epidemic_new g ic).infected.getD w 0 =
      if w ∈ ic.infected ∧ w < g.n then 1 else 0) ∧
    (epidemic_new g ic).num_infected = ic.infected.length ∧
    (epidemic_new g ic).stop_criterion = ic.stop_criterion ∧
    (epidemic_new g ic).bound = ic.bound ∧
    (epidemic_new g ic).g = g ∧
    (epidemic_new g ic).id = ic.id ∧
    (epidemic_new g ic).trace = [] ∧
    (epidemic_new g ic).draws = 0 ∧
    (epidemic_new g ic).dequeued = [] ∧
    (epidemic_new g ic).cascade_links = 0 ∧
    (epidemic_new g ic).t = 1 := by
  have hs := foldl_seed_spec g.n ic.infected
  have hf := foldl_seed_frame ic.infected
  set ep0 : Epidemic :=
    { id := ic.id, t := 1, num_infected := ic.infected.length
      cascade_links := 0, bound := ic.bound, stop_criterion := ic.stop_criterion
      g := g, infected := List.replicate g.n 0, active := queue_new g.n
      trace := [], draws := 0, dequeued := [], overflow := false } with hep0
  have hq0 : ep0.active.qend = 0 := rfl
  have hi0 : ep0.infected.length = g.n := by simp [hep0]
  have hs' := hs ep0 rfl rfl (by simp [hep0, queue_new]) (by rw [hq0]; omega) rfl
  have hf' := hf ep0
  have hnew : epidemic_new g ic = List.foldl epidemic_seed ep0 ic.infected := rfl
  rw [hnew]
  obtain ⟨o1, o2, o3, o4, o5, o6, o7⟩ := hs'
  obtain ⟨f1, f2, f3, f4, f5, f6, f7, f8, f9, f10, f11⟩ := hf'
  refine ⟨o1, ?_, ?_, ?_, ?_, f1, f2, f3, f4, f5, f8, f9, f10, f7, f6⟩
  · rw [o6]
    simp [hep0, toList_new]
  · refine ⟨o2, ?_, ?_, o4 ▸ o2 ▸ rfl⟩
    · rw [o3, o2]
      omega
    · rw [o5, hq0, o2]
      omega
  · rw [f11, hi0]
  · intro w
    by_cases hw : w < g.n
    · rw [o7 w (by rw [hi0]; exact hw), getD_replicate_zero]
      by_cases hmem : w ∈ ic.infected <;> simp [hmem, hw]
    · rw [List.getD_eq_getElem?_getD, List.getElem?_eq_none (by rw [f11, hi0]; omega)]
      simp [hw]

/-- Fields of `epidemic_new` copied straight from the initial condition,
with no hypotheses on the seeds at all. -/
theorem epidemic_new_frame (g : graph) (ic : InitialCondition) :
    (epidemic_new g ic).num_infected = ic.infected.length ∧
    (epidemic_new g ic).stop_criterion = ic.stop_criterion ∧
    (epidemic_new g ic).bound = ic.bound := by
  have hf := foldl_seed_frame ic.infected
    { id := ic.id, t := 1, num_infected := ic.infected.length
      cascade_links := 0, bound := ic.bound, stop_criterion := ic.stop_criterion
      g := g, infected := List.replicate g.n 0, active := queue_new g.n
      trace := [], draws := 0, dequeued := [], overflow := false }
  exact ⟨hf.1, hf.2.1, hf.2.2.1⟩

/-- Two isolated nodes, no arcs. -/
def isoG : graph := ⟨2, [[], []]⟩

/-- An initial condition whose seed list repeats node 0. -/
def dupIC : InitialCondition := ⟨11, [0, 0], 5, Stopc.MaxTime⟩

/-- C8 (amended): `epidemic_new` performs no validation at all: for any
seed list of at most n entries (in range or not, distinct or not) the
constructor succeeds — no assert fires — and `num_infected` is the seed
entry count, duplicates included.  (`p ∈ (0,1]` is enforced by the
driver's assert in `main` before any construction, not by the
constructor; an out-of-range seed makes the C constructor write outside
the `infected` array — undefined behavior — rather than fail cleanly.) -/
theorem C8_construction_no_validation (g : graph) (ic : InitialCondition)
    (hk : ic.infected.length ≤ g.n) :
    (epidemic_new g ic).overflow = false ∧
    (epidemic_new g ic).num_infected = ic.infected.length :=
  ⟨(epidemic_new_spec g ic hk).1, (epidemic_new_frame g ic).1⟩

/-- Witness for C8: the duplicate-seed construction on the two-node graph. -/
theorem C8_witness :
    dupIC.infected.length ≤ isoG.n ∧
    (epidemic_new isoG dupIC).overflow = false ∧
    (epidemic_new isoG dupIC).num_infected = 2 :=
  ⟨by decide, (C8_construction_no_validation isoG dupIC (by decide)).1,
    (C8_construction_no_validation isoG dupIC (by decide)).2⟩

/-- Counterexample to C8 as stated: seeds `[0, 0]` are not distinct, yet
construction succeeds (the full-buffer assert, the only failure path in
`epidemic_new`, does not fire) and returns a usable epidemic — one whose
`num_infected` (2) even disagrees with the number of infected nodes (1). -/
theorem C8_counterexample :
    ¬ dupIC.infected.Nodup ∧
    (epidemic_new isoG dupIC).overflow = false ∧
    (epidemic_new isoG dupIC).num_infected = 2 ∧
    posCount (epidemic_new isoG dupIC) = 1 := by
  refine ⟨by decide, by decide, by decide, by decide⟩

/-- C4 (amended): when a successful trial first-infects its target and
raises `numInfected` to exactly the MaxSize bound, exactly one trace
record is emitted for that trial, the rest of the provider's neighbor
list is not visited, and the run returns `sizeStop` at once; on the star
graph (center 0, arcs to 1..4, seed {0}, p = 1, bound = 3) the run stops
after the trial 0→2 with exactly two trace records, both at step 1,
numInfected = 3, and only node 0 ever dequeued. -/
theorem C4_maxsize_termination :
    (∀ (R : Nat → Bool) (ep : Epidemic) (u t v : Nat) (vs : List Nat),
      R ep.draws = true → ep.infected.getD v 0 = 0 →
      ep.stop_criterion = Stopc.NumInfected →
      ep.bound = ep.num_infected + 1 →
      (run_arcs R ep u t (v :: vs)).2 = true ∧
      (run_arcs R ep u t (v :: vs)).1.trace = ep.trace ++ [(t, u, v, ep.id)] ∧
      (run_arcs R ep u t (v :: vs)).1.num_infected = ep.num_infected + 1 ∧
      (run_arcs R ep u t (v :: vs)).1 = (run_arc R ep u t v).1) ∧
    (∀ (R : Nat → Bool) (fuel : Nat) (ep : Epidemic),
      queue_empty ep.active = false →
      ¬(ep.stop_criterion = Stopc.MaxTime ∧ ep.bound < headTime ep) →
      (stepArcs R ep).2 = true →
      epidemic_run R (fuel + 1) ep = ((stepArcs R ep).1, RunResult.sizeStop)) ∧
    ((epidemic_run allSucc 1 (epidemic_new starG ⟨9, [0], 3, Stopc.NumInfected⟩)).1.trace
        = [(1, 0, 1, 9), (1, 0, 2, 9)] ∧
      (epidemic_run allSucc 1 (epidemic_new starG ⟨9, [0], 3, Stopc.NumInfected⟩)).1.num_infected
        = 3 ∧
      (epidemic_run allSucc 1 (epidemic_new starG ⟨9, [0], 3, Stopc.NumInfected⟩)).1.dequeued
        = [(0, 1)] ∧
      (epidemic_run allSucc 1 (epidemic_new starG ⟨9, [0], 3, Stopc.NumInfected⟩)).2
        = RunResult.sizeStop) := by
  refine ⟨?_, ?_, by rw [star3_run]; rfl, by rw [star3_run]; rfl,
    by rw [star3_run]; rfl, by rw [star3_run]⟩
  · intro R ep u t v vs hR h0 hstop hbound
    rw [run_arcs_cons, run_arc_fresh_stop hR h0 ⟨hstop, hbound⟩]
    rw [if_pos rfl]
    exact ⟨rfl, rfl, rfl, rfl⟩
  · intro R fuel ep hne hnst hflag
    rw [epidemic_run_go' hne hnst, if_pos hflag]

/-- Counterexample to C4 as stated: the star run emits exactly two trace
records, not three. -/
theorem C4_counterexample :
    (epidemic_run allSucc 1 (epidemic_new starG ⟨9, [0], 3, Stopc.NumInfected⟩)).1.trace.length
        = 2 ∧
    ¬ (epidemic_run allSucc 1 (epidemic_new starG ⟨9, [0], 3, Stopc.NumInfected⟩)).1.trace.length
        = 3 := by
  rw [star3_run]
  exact ⟨rfl, by decide⟩

/-- Through the inner loop, with `stop = NumInfected` and
`bound ≤ B ≤ numInfected`, the equality check `bound == num_infected`
(made only right after an increment) can never hold, so the MaxSize
`return` never fires and the guard is maintained. -/
theorem run_arcs_size_guard (R : Nat → Bool) (B u t : Nat) :
    ∀ (vs : List Nat) (ep : Epidemic),
      ep.stop_criterion = Stopc.NumInfected → ep.bound ≤ B →
      B ≤ ep.num_infected →
      (run_arcs R ep u t vs).2 = false ∧
      (run_arcs R ep u t vs).1.stop_criterion = Stopc.NumInfected ∧
      (run_arcs R ep u t vs).1.bound ≤ B ∧
      B ≤ (run_arcs R ep u t vs).1.num_infected := by
  intro vs
  induction vs with
  | nil => exact fun ep h1 h2 h3 => ⟨rfl, h1, h2, h3⟩
  | cons v vs ih =>
    intro ep h1 h2 h3
    rw [run_arcs_cons]
    refine run_arc_elim (motive := fun r =>
      (if r.2 = true then (r.1, true) else run_arcs R r.1 u t vs).2 = false ∧
      (if r.2 = true then (r.1, true) else run_arcs R r.1 u t vs).1.stop_criterion
        = Stopc.NumInfected ∧
      (if r.2 = true then (r.1, true) else run_arcs R r.1 u t vs).1.bound ≤ B ∧
      B ≤ (if r.2 = true then (r.1, true)
        else run_arcs R r.1 u t vs).1.num_infected) R ep u t v ?_ ?_ ?_
    · intro _
      rw [if_neg (by simp)]
      exact ih _ h1 h2 h3
    · intro flag _ _ hiff
      have hflag : flag = false := by
        cases flag
        · rfl
        · exact absurd (hiff.mp rfl).2 (by omega)
      rw [hflag, if_neg (by simp)]
      exact ih _ h1 h2 (by simp; omega)
    · intro _ _
      rw [if_neg (by simp)]
      exact ih _ h1 h2 h3

/-- Over a whole run with `stop = NumInfected` and
`bound ≤ B ≤ numInfected`, neither the MaxSize `return` nor the MaxTime
`return` can end the run. -/
theorem epidemic_run_size_guard (R : Nat → Bool) (B : Nat) :
    ∀ (fuel : Nat) (ep : Epidemic),
      ep.stop_criterion = Stopc.NumInfected → ep.bound ≤ B →
      B ≤ ep.num_infected →
      (epidemic_run R fuel ep).2 ≠ RunResult.sizeStop ∧
      (epidemic_run R fuel ep).2 ≠ RunResult.depthStop := by
  intro fuel
  induction fuel with
  | zero => exact fun ep _ _ _ => ⟨by simp [epidemic_run], by simp [epidemic_run]⟩
  | succ fuel ih =>
    intro ep h1 h2 h3
    cases hqe : queue_empty ep.active
    · have hnst : ¬(ep.stop_criterion = Stopc.MaxTime ∧ ep.bound < headTime ep) := by
        rintro ⟨hmt, _⟩
        rw [h1] at hmt
        cases hmt
      rw [epidemic_run_go' hqe hnst]
      have hg := run_arcs_size_guard R B (headNode ep) (headTime ep)
        ((deq ep).g.out (headNode ep)) (deq ep) h1 h2 h3
      have hflag : (stepArcs R ep).2 = false := hg.1
      rw [if_neg (by simp [hflag])]
      exact ih _ hg.2.1 hg.2.2.1 hg.2.2.2
    · rw [epidemic_run_empty hqe]
      exact ⟨by simp, by simp⟩

/-- C9: with `stop = MaxSize` and `bound ≤ |seeds|`, the size check —
which compares `bound` with `numInfected` only right after an increment,
while `numInfected` starts at the seed count — never fires: no run from
such an initial condition ends in `sizeStop` (nor `depthStop`), so a
terminating run ends only by draining the frontier, and `numInfected`
may exceed `bound`, as on the star graph with bound 1. -/
theorem C9_size_bound_at_most_seeds :
    (∀ (R : Nat → Bool) (fuel : Nat) (g : graph) (ic : InitialCondition),
      ic.stop_criterion = Stopc.NumInfected →
      ic.bound ≤ ic.infected.length →
      (epidemic_run R fuel (epidemic_new g ic)).2 ≠ RunResult.sizeStop ∧
      (epidemic_run R fuel (epidemic_new g ic)).2 ≠ RunResult.depthStop) ∧
    ((epidemic_run allSucc 6 (epidemic_new starG ⟨9, [0], 1, Stopc.NumInfected⟩)).2
        = RunResult.finished ∧
      (epidemic_run allSucc 6 (epidemic_new starG ⟨9, [0], 1, Stopc.NumInfected⟩)).1.num_infected
        = 5 ∧
      (epidemic_new starG ⟨9, [0], 1, Stopc.NumInfected⟩).bound = 1) := by
  refine ⟨?_, by rw [star1_run], by rw [star1_run]; rfl, by rw [star1_new]; rfl⟩
  intro R fuel g ic h1 h2
  have hn := epidemic_new_frame g ic
  exact epidemic_run_size_guard R ic.infected.length fuel (epidemic_new g ic)
    (by rw [hn.2.1, h1]) (by rw [hn.2.2]; exact h2) (by rw [hn.1])

/-- Witness for C9 at the star graph with a single seed and bound 1. -/
theorem C9_witness :
    (⟨9, [0], 1, Stopc.NumInfected⟩ : InitialCondition).stop_criterion
        = Stopc.NumInfected ∧
    (⟨9, [0], 1, Stopc.NumInfected⟩ : InitialCondition).bound ≤ 1 ∧
    (epidemic_run allSucc 6 (epidemic_new starG ⟨9, [0], 1, Stopc.NumInfected⟩)).2
        ≠ RunResult.sizeStop :=
  ⟨by decide, by decide,
    (C9_size_bound_at_most_seeds.1 allSucc 6 starG ⟨9, [0], 1, Stopc.NumInfected⟩
      (by decide) (by decide)).1⟩

/-- Witness for C4: on the star graph with bound 2 the very first trial
0→1 raises `numInfected` to the bound and flags the MaxSize return. -/
theorem C4_witness :
    allSucc (epidemic_new starG ⟨9, [0], 2, Stopc.NumInfected⟩).draws = true ∧
    (epidemic_new starG ⟨9, [0], 2, Stopc.NumInfected⟩).infected.getD 1 0 = 0 ∧
    (epidemic_new starG ⟨9, [0], 2, Stopc.NumInfected⟩).stop_criterion
      = Stopc.NumInfected ∧
    (epidemic_new starG ⟨9, [0], 2, Stopc.NumInfected⟩).bound
      = (epidemic_new starG ⟨9, [0], 2, Stopc.NumInfected⟩).num_infected + 1 ∧
    (run_arcs allSucc (epidemic_new starG ⟨9, [0], 2, Stopc.NumInfected⟩)
      0 1 [1, 2, 3, 4]).2 = true :=
  ⟨by decide, by decide, by decide, by decide,
    (C4_maxsize_termination.1 allSucc _ 0 1 1 [2, 3, 4]
      (by decide) (by decide) (by decide) (by decide)).1⟩

/-! ### Graph contract and the run invariant -/

/-- The contract of the consumed graph: one adjacency list per node and
every out-neighbor a valid node id. -/
structure GWF (g : graph) : Prop where
  links_len : g.links.length = g.n
  mem_lt : ∀ l ∈ g.links, ∀ v ∈ l, v < g.n

/-- Infection time of `v` (`epidemic->infected[v]`; 0 = never infected). -/
def itime (ep : Epidemic) (v : Nat) : Nat := ep.infected.getD v 0

theorem out_lt {g : graph} (hg : GWF g) (u : Nat) :
    ∀ v ∈ g.out u, v < g.n := by
  intro v hv
  unfold graph.out at hv
  rcases Nat.lt_or_ge u g.links.length with hu | hu
  · have hgu : g.links.getD u [] = g.links[u] := by
      rw [List.getD_eq_getElem?_getD, List.getElem?_eq_getElem hu]
      rfl
    rw [hgu] at hv
    exact hg.mem_lt _ (List.getElem_mem hu) v hv
  · rw [List.getD_eq_getElem?_getD, List.getElem?_eq_none hu] at hv
    simp at hv

theorem nodup_length_le (l : List Nat) (S : Finset Nat) (hnd : l.Nodup)
    (hsub : ∀ x ∈ l, x ∈ S) : l.length ≤ S.card := by
  rw [← List.toFinset_card_of_nodup hnd]
  exact Finset.card_le_card (fun x hx => hsub x (List.mem_toFinset.mp hx))

theorem posCount_le (ep : Epidemic) : posCount ep ≤ ep.g.n := by
  unfold posCount
  calc ((Finset.range ep.g.n).filter (fun v => 0 < ep.infected.getD v 0)).card
      ≤ (Finset.range ep.g.n).card := Finset.card_filter_le _ _
    _ = ep.g.n := Finset.card_range _

theorem card_filter_set (n v c : Nat) (l : List Nat) (hv : v < l.length)
    (h0 : l.getD v 0 = 0) (hc : 0 < c) (hvn : v < n) :
    ((Finset.range n).filter (fun w => 0 < (l.set v c).getD w 0)).card =
      ((Finset.range n).filter (fun w => 0 < l.getD w 0)).card + 1 := by
  have hset : (Finset.range n).filter (fun w => 0 < (l.set v c).getD w 0) =
      insert v ((Finset.range n).filter (fun w => 0 < l.getD w 0)) := by
    ext w
    simp only [Finset.mem_filter, Finset.mem_insert, Finset.mem_range]
    constructor
    · rintro ⟨hwn, hpos⟩
      by_cases hwv : w = v
      · exact Or.inl hwv
      · right
        rw [getD_set_ne _ _ _ (fun hc' => hwv hc'.symm)] at hpos
        exact ⟨hwn, hpos⟩
    · rintro (hwv | ⟨hwn, hpos⟩)
      · subst hwv
        refine ⟨hvn, ?_⟩
        rw [getD_set_self _ _ _ hv]
        exact hc
      · refine ⟨hwn, ?_⟩
        by_cases hwv : w = v
        · subst hwv
          rw [h0] at hpos
          omega
        · rw [getD_set_ne _ _ _ (fun hc' => hwv hc'.symm)]
          exact hpos
  rw [hset, Finset.card_insert_of_not_mem ?_]
  intro hmem
  rw [Finset.mem_filter, h0] at hmem
  exact absurd hmem.2 (lt_irrefl 0)

/-- The loop-boundary invariant of `epidemic_run`, for an arbitrary trial
oracle and stop criterion.  `toList` is the frontier contents in FIFO
order; the time components say the frontier is a breadth-first wave. -/
structure EngineInv (g : graph) (ep : Epidemic) : Prop where
  geq : ep.g = g
  ilen : ep.infected.length = g.n
  qwf : QWF ep.active g.n
  nodup : ep.active.toList.Nodup
  qmem : ∀ v ∈ ep.active.toList, v < g.n ∧ 0 < itime ep v
  ncount : ep.num_infected = posCount ep
  qsorted : List.Pairwise (fun a b => a ≤ b) (ep.active.toList.map (itime ep))
  qnear : ∀ a ∈ ep.active.toList.map (itime ep),
    ∀ b ∈ ep.active.toList.map (itime ep), a ≤ b + 1
  deq_le : ∀ td ∈ ep.dequeued.map Prod.snd,
    ∀ a ∈ ep.active.toList.map (itime ep), td ≤ a
  deq_sorted : List.Pairwise (fun a b => a ≤ b) (ep.dequeued.map Prod.snd)
  inf_near : ∀ v, 0 < itime ep v →
    ∀ a ∈ ep.active.toList.map (itime ep), itime ep v ≤ a + 1
  ovf : ep.overflow = false

/-- The invariant that holds while the inner loop of one outer iteration
(provider dequeued at time `t0`) is running. -/
structure InnerInv (g : graph) (t0 : Nat) (ep : Epidemic) : Prop where
  geq : ep.g = g
  ilen : ep.infected.length = g.n
  qwf : QWF ep.active g.n
  nodup : ep.active.toList.Nodup
  qmem : ∀ v ∈ ep.active.toList, v < g.n ∧ 0 < itime ep v
  ncount : ep.num_infected = posCount ep
  qtimes : ∀ v ∈ ep.active.toList, t0 ≤ itime ep v ∧ itime ep v ≤ t0 + 1
  qsorted : List.Pairwise (fun a b => a ≤ b) (ep.active.toList.map (itime ep))
  inf_le : ∀ v, 0 < itime ep v → itime ep v ≤ t0 + 1
  deq_le : ∀ td ∈ ep.dequeued.map Prod.snd, td ≤ t0
  deq_sorted : List.Pairwise (fun a b => a ≤ b) (ep.dequeued.map Prod.snd)
  ovf : ep.overflow = false

/-- Dequeuing the head at the top of the `while` loop turns the boundary
invariant into the inner-loop invariant at the head's infection time. -/
theorem inv_deq_inner {g : graph} {ep : Epidemic} (h : EngineInv g ep)
    (hne : queue_empty ep.active = false) :
    InnerInv g (headTime ep) (deq ep) := by
  have htl := queue_get_toList h.qwf hne
  have hhead : headNode ep ∈ ep.active.toList := by
    rw [htl]
    exact List.mem_cons_self _ _
  have hheadmem : itime ep (headNode ep) ∈ ep.active.toList.map (itime ep) :=
    List.mem_map_of_mem _ hhead
  have htail : ∀ w ∈ (deq ep).active.toList, w ∈ ep.active.toList := by
    intro w hw
    rw [htl]
    exact List.mem_cons_of_mem _ hw
  have hsorted := h.qsorted
  rw [htl, List.map_cons, List.pairwise_cons] at hsorted
  have hmapdeq : (deq ep).dequeued.map Prod.snd =
      ep.dequeued.map Prod.snd ++ [headTime ep] := by
    show (ep.dequeued ++ [(headNode ep, headTime ep)]).map Prod.snd = _
    simp
  refine ⟨h.geq, h.ilen, queue_get_qwf h.qwf, ?_, ?_, h.ncount, ?_, hsorted.2,
    ?_, ?_, ?_, h.ovf⟩
  · have hnd := h.nodup
    rw [htl] at hnd
    exact (List.nodup_cons.mp hnd).2
  · intro w hw
    exact h.qmem w (htail w hw)
  · intro w hw
    have hmem : itime ep w ∈ ep.active.toList.map (itime ep) :=
      List.mem_map_of_mem _ (htail w hw)
    exact ⟨hsorted.1 _ (List.mem_map_of_mem _ hw), h.qnear _ hmem _ hheadmem⟩
  · intro w hw
    exact h.inf_near w hw _ hheadmem
  · intro td htd
    rw [hmapdeq] at htd
    rcases List.mem_append.mp htd with hold | hnew
    · exact h.deq_le td hold _ hheadmem
    · simp at hnew
      omega
  · rw [hmapdeq, List.pairwise_append]
    refine ⟨h.deq_sorted, List.pairwise_singleton _ _, ?_⟩
    intro a ha b hb
    simp at hb
    subst hb
    exact h.deq_le a ha _ hheadmem

/-- The inner-loop invariant implies the boundary invariant (all frontier
times sit in the window `[t0, t0 + 1]`). -/
theorem inner_to_inv {g : graph} {t0 : Nat} {ep : Epidemic}
    (h : InnerInv g t0 ep) : EngineInv g ep := by
  have hwin : ∀ a ∈ ep.active.toList.map (itime ep), t0 ≤ a ∧ a ≤ t0 + 1 := by
    intro a ha
    rcases List.mem_map.mp ha with ⟨w, hw, rfl⟩
    exact h.qtimes w hw
  refine ⟨h.geq, h.ilen, h.qwf, h.nodup, h.qmem, h.ncount, h.qsorted, ?_, ?_,
    h.deq_sorted, ?_, h.ovf⟩
  · intro a ha b hb
    have := (hwin a ha).2
    have := (hwin b hb).1
    omega
  · intro td htd a ha
    have := h.deq_le td htd
    have := (hwin a ha).1
    omega
  · intro v hv a ha
    have := h.inf_le v hv
    have := (hwin a ha).1
    omega

/-- When the inner loop is about to push a fresh target, the frontier
holds strictly fewer than `n` nodes: its members are distinct infected
nodes other than the target, and at most `n` nodes exist. -/
theorem inner_count_lt {g : graph} {t0 : Nat} {ep : Epidemic} {v : Nat}
    (hv : v < g.n) (h : InnerInv g t0 ep)
    (h0 : ep.infected.getD v 0 = 0) : ep.active.count < g.n := by
  have hvlen : v < ep.infected.length := by
    rw [h.ilen]
    exact hv
  have hvnot : v ∉ ep.active.toList := by
    intro hmem
    have hpos := (h.qmem v hmem).2
    unfold itime at hpos
    rw [h0] at hpos
    omega
  have hxs : ∀ x ∈ ep.active.toList, x ≠ v := by
    intro x hx hxv
    exact hvnot (hxv ▸ hx)
  have hset_old : ∀ x, x ≠ v →
      (ep.infected.set v (t0 + 1)).getD x 0 = ep.infected.getD x 0 := by
    intro x hx
    exact getD_set_ne _ _ _ (fun hc => hx hc.symm)
  have hset_v : (ep.infected.set v (t0 + 1)).getD v 0 = t0 + 1 :=
    getD_set_self _ _ _ hvlen
  have hsub : ∀ x ∈ v :: ep.active.toList,
      x ∈ (Finset.range g.n).filter
        (fun w => 0 < (ep.infected.set v (t0 + 1)).getD w 0) := by
    intro x hx
    rcases List.mem_cons.mp hx with rfl | hx
    · rw [Finset.mem_filter, hset_v]
      exact ⟨Finset.mem_range.mpr hv, by omega⟩
    · rw [Finset.mem_filter, hset_old x (hxs x hx)]
      exact ⟨Finset.mem_range.mpr (h.qmem x hx).1, (h.qmem x hx).2⟩
  have hlen1 : ep.active.toList.length + 1 ≤
      ((Finset.range g.n).filter
        (fun w => 0 < (ep.infected.set v (t0 + 1)).getD w 0)).card := by
    have := nodup_length_le (v :: ep.active.toList) _
      (List.nodup_cons.mpr ⟨hvnot, h.nodup⟩) hsub
    simpa using this
  have hlen2 : ((Finset.range g.n).filter
      (fun w => 0 < (ep.infected.set v (t0 + 1)).getD w 0)).card ≤ g.n := by
    calc _ ≤ (Finset.range g.n).card := Finset.card_filter_le _ _
      _ = g.n := Finset.card_range _
  rw [← toList_length]
  omega

/-- One arc trial preserves the inner-loop invariant (and in particular
the frontier buffer is never full when the trial pushes). -/
theorem inner_arc {g : graph} {t0 : Nat} {R : Nat → Bool} {ep : Epidemic}
    {u v : Nat} (hv : v < g.n) (h : InnerInv g t0 ep) :
    InnerInv g t0 (run_arc R ep u t0 v).1 := by
  have hposc : ∀ ep' : Epidemic, ep'.g = g →
      posCount ep' = ((Finset.range g.n).filter
        (fun w => 0 < ep'.infected.getD w 0)).card := by
    intro ep' hg'
    unfold posCount
    rw [hg']
  refine run_arc_elim (motive := fun r => InnerInv g t0 r.1) R ep u t0 v ?_ ?_ ?_
  · intro _
    exact ⟨h.geq, h.ilen, h.qwf, h.nodup, h.qmem, h.ncount, h.qtimes,
      h.qsorted, h.inf_le, h.deq_le, h.deq_sorted, h.ovf⟩
  · intro flag hR h0 _
    have hvlen : v < ep.infected.length := by
      rw [h.ilen]
      exact hv
    have hvnot : v ∉ ep.active.toList := by
      intro hmem
      have hpos := (h.qmem v hmem).2
      unfold itime at hpos
      rw [h0] at hpos
      omega
    have hxs : ∀ x ∈ ep.active.toList, x ≠ v := by
      intro x hx hxv
      exact hvnot (hxv ▸ hx)
    have hset_old : ∀ x, x ≠ v →
        (ep.infected.set v (t0 + 1)).getD x 0 = ep.infected.getD x 0 := by
      intro x hx
      exact getD_set_ne _ _ _ (fun hc => hx hc.symm)
    have hset_v : (ep.infected.set v (t0 + 1)).getD v 0 = t0 + 1 :=
      getD_set_self _ _ _ hvlen
    have hpc : ((Finset.range g.n).filter
          (fun w => 0 < (ep.infected.set v (t0 + 1)).getD w 0)).card =
        ((Finset.range g.n).filter (fun w => 0 < ep.infected.getD w 0)).card + 1 :=
      card_filter_set g.n v (t0 + 1) ep.infected hvlen h0 (by omega) hv
    have hcnt : ep.active.count < g.n := inner_count_lt hv h h0
    have htl' := queue_add_toList h.qwf v hcnt
    have hnotfull := queue_not_full h.qwf hcnt
    have hmap : ∀ l : List Nat, (∀ x ∈ l, x ≠ v) →
        l.map (fun w => (ep.infected.set v (t0 + 1)).getD w 0) =
        l.map (itime ep) := by
      intro l hl
      apply List.map_congr_left
      intro x hx
      exact hset_old x (hl x hx)
    refine ⟨h.geq, ?_, queue_add_qwf h.qwf v, ?_, ?_, ?_, ?_, ?_, ?_,
      h.deq_le, h.deq_sorted, ?_⟩
    · rw [List.length_set]
      exact h.ilen
    · rw [htl', List.nodup_append]
      exact ⟨h.nodup, List.nodup_singleton v,
        fun a ha hb => hvnot ((List.mem_singleton.mp hb) ▸ ha)⟩
    · intro w hw
      rw [htl'] at hw
      rcases List.mem_append.mp hw with hw | hw
      · refine ⟨(h.qmem w hw).1, ?_⟩
        show 0 < (ep.infected.set v (t0 + 1)).getD w 0
        rw [hset_old w (hxs w hw)]
        exact (h.qmem w hw).2
      · rw [List.mem_singleton.mp hw]
        refine ⟨hv, ?_⟩
        show 0 < (ep.infected.set v (t0 + 1)).getD v 0
        rw [hset_v]
        omega
    · show ep.num_infected + 1 = _
      unfold posCount
      dsimp only
      rw [h.geq, hpc, h.ncount, hposc ep h.geq]
    · intro w hw
      rw [htl'] at hw
      rcases List.mem_append.mp hw with hw | hw
      · have hold := h.qtimes w hw
        show t0 ≤ (ep.infected.set v (t0 + 1)).getD w 0 ∧
          (ep.infected.set v (t0 + 1)).getD w 0 ≤ t0 + 1
        rw [hset_old w (hxs w hw)]
        exact hold
      · rw [List.mem_singleton.mp hw]
        show t0 ≤ (ep.infected.set v (t0 + 1)).getD v 0 ∧
          (ep.infected.set v (t0 + 1)).getD v 0 ≤ t0 + 1
        rw [hset_v]
        omega
    · show List.Pairwise _ ((queue_add ep.active v).toList.map
        (fun w => (ep.infected.set v (t0 + 1)).getD w 0))
      rw [htl', List.map_append, hmap _ hxs]
      rw [List.pairwise_append]
      refine ⟨h.qsorted, by simp, ?_⟩
      intro a ha b hb
      simp only [List.map_cons, List.map_nil, List.mem_singleton] at hb
      rw [hb, hset_v]
      rcases List.mem_map.mp ha with ⟨w, hw, rfl⟩
      exact (h.qtimes w hw).2
    · intro w hw
      have hw' : 0 < (ep.infected.set v (t0 + 1)).getD w 0 := hw
      show (ep.infected.set v (t0 + 1)).getD w 0 ≤ t0 + 1
      by_cases hwv : w = v
      · have hwt : (ep.infected.set v (t0 + 1)).getD w 0 = t0 + 1 := by
          rw [hwv]
          exact hset_v
        rw [hwt]
      · rw [hset_old w hwv]
        rw [hset_old w hwv] at hw'
        exact h.inf_le w hw'
    · show (ep.overflow || queue_full ep.active) = false
      rw [h.ovf, hnotfull]
      rfl
  · intro hR h0
    exact ⟨h.geq, h.ilen, h.qwf, h.nodup, h.qmem, h.ncount, h.qtimes,
      h.qsorted, h.inf_le, h.deq_le, h.deq_sorted, h.ovf⟩

theorem inner_arcs {g : graph} {t0 : Nat} (R : Nat → Bool) (u : Nat) :
    ∀ vs : List Nat, (∀ v ∈ vs, v < g.n) → ∀ ep : Epidemic,
      InnerInv g t0 ep → InnerInv g t0 (run_arcs R ep u t0 vs).1 := by
  intro vs
  induction vs with
  | nil => exact fun _ ep h => h
  | cons v vs ih =>
    intro hvs ep h
    rw [run_arcs_cons]
    have h1 : InnerInv g t0 (run_arc R ep u t0 v).1 :=
      inner_arc (hvs v (List.mem_cons_self _ _)) h
    cases hb : (run_arc R ep u t0 v).2
    · rw [if_neg (by simp)]
      exact ih (fun w hw => hvs w (List.mem_cons_of_mem _ hw)) _ h1
    · rw [if_pos rfl]
      exact h1

theorem inv_deq {g : graph} {ep : Epidemic} (h : EngineInv g ep)
    (hne : queue_empty ep.active = false) : EngineInv g (deq ep) :=
  inner_to_inv (inv_deq_inner h hne)

theorem inv_step {g : graph} {R : Nat → Bool} {ep : Epidemic} (hg : GWF g)
    (h : EngineInv g ep) (hne : queue_empty ep.active = false) :
    EngineInv g (stepArcs R ep).1 := by
  have hin := inv_deq_inner h hne
  have hout : ∀ v ∈ (deq ep).g.out (headNode ep), v < g.n := by
    intro v hv
    have hdg : (deq ep).g = g := h.geq
    rw [hdg] at hv
    exact out_lt hg _ v hv
  exact inner_to_inv (inner_arcs R (headNode ep) _ hout _ hin)

/-- The boundary invariant is maintained for the whole run, whatever the
oracle, stop criterion and fuel. -/
theorem inv_run {g : graph} (R : Nat → Bool) (hg : GWF g) :
    ∀ (fuel : Nat) (ep : Epidemic), EngineInv g ep →
      EngineInv g (epidemic_run R fuel ep).1 :=
  epidemic_run_preserves
    (fun _ hne h _ _ => inv_deq h hne)
    (fun _ hne h _ => inv_step hg h hne)

theorem pairwise_le_of_const (c : Nat) (l : List Nat) (h : ∀ a ∈ l, a = c) :
    List.Pairwise (fun a b => a ≤ b) l := by
  induction l with
  | nil => exact List.Pairwise.nil
  | cons x xs ih =>
    refine List.Pairwise.cons ?_ (ih fun a ha => h a (List.mem_cons_of_mem _ ha))
    intro b hb
    rw [h x (List.mem_cons_self _ _), h b (List.mem_cons_of_mem _ hb)]

/-- A freshly constructed epidemic with distinct in-range seeds satisfies
the boundary invariant. -/
theorem inv_new {g : graph} {ic : InitialCondition} (hnd : ic.infected.Nodup)
    (hlt : ∀ s ∈ ic.infected, s < g.n) : EngineInv g (epidemic_new g ic) := by
  have hk : ic.infected.length ≤ g.n := by
    have := nodup_length_le ic.infected (Finset.range g.n) hnd
      (fun x hx => Finset.mem_range.mpr (hlt x hx))
    simpa using this
  obtain ⟨e1, e2, e3, e4, e5, e6, e7, e8, e9, e10, e11, e12, e13, e14, e15⟩ :=
    epidemic_new_spec g ic hk
  have hone : ∀ v ∈ ic.infected, itime (epidemic_new g ic) v = 1 := by
    intro v hv
    unfold itime
    rw [e5 v, if_pos ⟨hv, hlt v hv⟩]
  have honemap : ∀ a ∈ (epidemic_new g ic).active.toList.map
      (itime (epidemic_new g ic)), a = 1 := by
    intro a ha
    rcases List.mem_map.mp ha with ⟨w, hw, rfl⟩
    rw [e2] at hw
    exact hone w hw
  refine ⟨e9, e4, e3, ?_, ?_, ?_, ?_, ?_, ?_, ?_, ?_, e1⟩
  · rw [e2]
    exact hnd
  · intro v hv
    rw [e2] at hv
    refine ⟨hlt v hv, ?_⟩
    rw [hone v hv]
    omega
  · rw [e6]
    unfold posCount
    rw [e9]
    have hfe : (Finset.range g.n).filter
        (fun w => 0 < (epidemic_new g ic).infected.getD w 0) =
        ic.infected.toFinset := by
      ext w
      rw [Finset.mem_filter, Finset.mem_range, List.mem_toFinset, e5 w]
      constructor
      · rintro ⟨hwn, hpos⟩
        by_cases hmem : w ∈ ic.infected ∧ w < g.n
        · exact hmem.1
        · rw [if_neg hmem] at hpos
          omega
      · intro hmem
        refine ⟨hlt w hmem, ?_⟩
        rw [if_pos ⟨hmem, hlt w hmem⟩]
        omega
    rw [hfe, List.toFinset_card_of_nodup hnd]
  · exact pairwise_le_of_const 1 _ honemap
  · intro a ha b hb
    rw [honemap a ha, honemap b hb]
    omega
  · intro td htd
    rw [e13] at htd
    simp at htd
  · rw [e13]
    exact List.Pairwise.nil
  · intro v hv a ha
    rw [honemap a ha]
    unfold itime at hv ⊢
    rw [e5 v] at hv ⊢
    by_cases hmem : v ∈ ic.infected ∧ v < g.n
    · rw [if_pos hmem]
      omega
    · rw [if_neg hmem] at hv
      omega

/-- C6: the frontier buffer of an epidemic over `n` nodes is created with
`n + 1` slots, and on every run from distinct in-range seeds the
not-full precondition of `queue_add` holds at every push — the
`assert(!queue_full)` (recorded in the `overflow` ghost flag, which is
monotone in the run) never fires. -/
theorem C6_no_overflow (g : graph) (ic : InitialCondition) (hg : GWF g)
    (hnd : ic.infected.Nodup) (hlt : ∀ s ∈ ic.infected, s < g.n) :
    (epidemic_new g ic).active.size = g.n + 1 ∧
    (∀ (R : Nat → Bool) (fuel : Nat),
      (epidemic_run R fuel (epidemic_new g ic)).1.overflow = false) := by
  have hinv := inv_new hnd hlt
  exact ⟨hinv.qwf.size_eq, fun R fuel => (inv_run R hg fuel _ hinv).ovf⟩

/-- Witness for C6 on the line graph with seed {0}. -/
theorem C6_witness :
    (epidemic_new lineG ⟨7, [0], 2, Stopc.MaxTime⟩).active.size = lineG.n + 1 ∧
    (epidemic_run allSucc 10
      (epidemic_new lineG ⟨7, [0], 2, Stopc.MaxTime⟩)).1.overflow = false :=
  ⟨(C6_no_overflow lineG ⟨7, [0], 2, Stopc.MaxTime⟩ ⟨by decide, by decide⟩
      (by decide) (by decide)).1,
    (C6_no_overflow lineG ⟨7, [0], 2, Stopc.MaxTime⟩ ⟨by decide, by decide⟩
      (by decide) (by decide)).2 allSucc 10⟩

/-- C7: on every run from distinct in-range seeds, at every loop boundary
(fuel 0 is the state right after construction, intermediate fuel values
stop after that many dequeued-and-processed nodes, large fuel reaches
termination) `numInfected` equals the number of nodes with positive
infection time. -/
theorem C7_num_infected_count (g : graph) (ic : InitialCondition) (hg : GWF g)
    (hnd : ic.infected.Nodup) (hlt : ∀ s ∈ ic.infected, s < g.n) :
    ∀ (R : Nat → Bool) (fuel : Nat),
      (epidemic_run R fuel (epidemic_new g ic)).1.num_infected =
        posCount (epidemic_run R fuel (epidemic_new g ic)).1 :=
  fun R fuel => (inv_run R hg fuel _ (inv_new hnd hlt)).ncount

/-- Witness for C7 on the line graph with seed {0}. -/
theorem C7_witness :
    (epidemic_run allSucc 10
        (epidemic_new lineG ⟨7, [0], 2, Stopc.MaxTime⟩)).1.num_infected =
      posCount (epidemic_run allSucc 10
        (epidemic_new lineG ⟨7, [0], 2, Stopc.MaxTime⟩)).1 :=
  C7_num_infected_count lineG ⟨7, [0], 2, Stopc.MaxTime⟩ ⟨by decide, by decide⟩
    (by decide) (by decide) allSucc 10

/-- C10: on every run from distinct in-range seeds the infection times of
the successively dequeued nodes form a nondecreasing sequence (the ghost
`dequeued` log records exactly `(u, infectionTime[u])` at each dequeue),
and a successful trial from a provider at time `t` that enqueues its
fresh target `v` stores infection time exactly `t + 1` for `v`. -/
theorem C10_bfs_order (g : graph) (ic : InitialCondition) (hg : GWF g)
    (hnd : ic.infected.Nodup) (hlt : ∀ s ∈ ic.infected, s < g.n) :
    (∀ (R : Nat → Bool) (fuel : Nat),
      List.Pairwise (fun a b => a ≤ b)
        ((epidemic_run R fuel (epidemic_new g ic)).1.dequeued.map Prod.snd)) ∧
    (∀ (R : Nat → Bool) (ep : Epidemic) (u t v : Nat),
      R ep.draws = true → ep.infected.getD v 0 = 0 →
      v < ep.infected.length →
      (run_arc R ep u t v).1.infected.getD v 0 = t + 1 ∧
      (run_arc R ep u t v).1.active = queue_add ep.active v) := by
  constructor
  · intro R fuel
    exact (inv_run R hg fuel _ (inv_new hnd hlt)).deq_sorted
  · intro R ep u t v hR h0 hvlen
    by_cases hc : ep.stop_criterion = Stopc.NumInfected ∧
        ep.bound = ep.num_infected + 1
    · rw [run_arc_fresh_stop hR h0 hc]
      exact ⟨getD_set_self _ _ _ hvlen, rfl⟩
    · rw [run_arc_fresh_go hR h0 hc]
      exact ⟨getD_set_self _ _ _ hvlen, rfl⟩

/-- Witness for C10 on the line graph with seed {0}. -/
theorem C10_witness :
    List.Pairwise (fun a b => a ≤ b)
      ((epidemic_run allSucc 10
        (epidemic_new lineG ⟨7, [0], 2, Stopc.MaxTime⟩)).1.dequeued.map Prod.snd) ∧
    (run_arc allSucc (epidemic_new lineG ⟨7, [0], 2, Stopc.MaxTime⟩)
      0 1 1).1.infected.getD 1 0 = 1 + 1 :=
  ⟨(C10_bfs_order lineG ⟨7, [0], 2, Stopc.MaxTime⟩ ⟨by decide, by decide⟩
      (by decide) (by decide)).1 allSucc 10,
    ((C10_bfs_order lineG ⟨7, [0], 2, Stopc.MaxTime⟩ ⟨by decide, by decide⟩
      (by decide) (by decide)).2 allSucc
      (epidemic_new lineG ⟨7, [0], 2, Stopc.MaxTime⟩) 0 1 1
      (by decide) (by decide) (by decide)).1⟩

/-! ### Persistence of infection times -/

theorem run_arc_persist {R : Nat → Bool} {ep : Epidemic} {u t v w : Nat}
    (hw : 0 < ep.infected.getD w 0) :
    (run_arc R ep u t v).1.infected.getD w 0 = ep.infected.getD w 0 := by
  refine run_arc_elim (motive := fun r =>
    r.1.infected.getD w 0 = ep.infected.getD w 0) R ep u t v ?_ ?_ ?_
  · intro _
    rfl
  · intro flag _ h0 _
    show (ep.infected.set v (t + 1)).getD w 0 = _
    refine getD_set_ne _ _ _ ?_
    intro hvw
    rw [hvw] at h0
    rw [h0] at hw
    omega
  · intro _ _
    rfl

theorem run_arcs_persist {R : Nat → Bool} {u t : Nat} :
    ∀ (vs : List Nat) (ep : Epidemic) (w : Nat),
      0 < ep.infected.getD w 0 →
      (run_arcs R ep u t vs).1.infected.getD w 0 = ep.infected.getD w 0 := by
  intro vs
  induction vs with
  | nil => exact fun ep w _ => rfl
  | cons v vs ih =>
    intro ep w hw
    rw [run_arcs_cons]
    have harc := run_arc_persist (v := v) (u := u) (t := t) (R := R) hw
    cases hb : (run_arc R ep u t v).2
    · rw [if_neg (by simp)]
      rw [ih _ w (by rw [harc]; exact hw), harc]
    · rw [if_pos rfl]
      exact harc

/-- Once a node is infected, its recorded infection time never changes
for the rest of the run. -/
theorem run_persist (R : Nat → Bool) (w c : Nat) (hc : 0 < c) :
    ∀ (fuel : Nat) (ep : Epidemic), ep.infected.getD w 0 = c →
      (epidemic_run R fuel ep).1.infected.getD w 0 = c :=
  epidemic_run_preserves (fun _ _ h _ _ => h)
    (fun ep _ h _ => by
      show (run_arcs R (deq ep) (headNode ep) (headTime ep) _).1.infected.getD w 0 = c
      rw [run_arcs_persist _ (deq ep) w (by show 0 < ep.infected.getD w 0; omega)]
      exact h)

/-- With the all-success oracle (p = 1) and stop = MaxDepth, one whole
inner loop never returns early, keeps every frontier member, enqueues
every node it first-infects, and leaves every visited out-neighbor
infected with time at most `t0 + 1`. -/
theorem run_arcs_true {g : graph} {t0 : Nat} (u : Nat) :
    ∀ (vs : List Nat), (∀ v ∈ vs, v < g.n) → ∀ ep : Epidemic,
      InnerInv g t0 ep → ep.stop_criterion = Stopc.MaxTime →
      (run_arcs (fun _ => true) ep u t0 vs).2 = false ∧
      (∀ w, 0 < itime ep w →
        itime (run_arcs (fun _ => true) ep u t0 vs).1 w = itime ep w) ∧
      (∀ w ∈ ep.active.toList,
        w ∈ (run_arcs (fun _ => true) ep u t0 vs).1.active.toList) ∧
      (∀ w, itime ep w = 0 →
        0 < itime (run_arcs (fun _ => true) ep u t0 vs).1 w →
        w ∈ (run_arcs (fun _ => true) ep u t0 vs).1.active.toList) ∧
      (∀ v ∈ vs, 0 < itime (run_arcs (fun _ => true) ep u t0 vs).1 v ∧
        itime (run_arcs (fun _ => true) ep u t0 vs).1 v ≤ t0 + 1) ∧
      (run_arcs (fun _ => true) ep u t0 vs).1.stop_criterion = Stopc.MaxTime := by
  intro vs
  induction vs with
  | nil =>
    intro _ ep h hst
    refine ⟨rfl, fun w _ => rfl, fun w hw => hw, ?_, ?_, hst⟩
    · intro w h0 hpos
      have hpos' : 0 < itime ep w := hpos
      unfold itime at h0 hpos'
      omega
    · intro v hv
      exact absurd hv (List.not_mem_nil v)
  | cons v vs ih =>
    intro hvs ep h hst
    have hv : v < g.n := hvs v (List.mem_cons_self _ _)
    have hvs' : ∀ x ∈ vs, x < g.n := fun x hx => hvs x (List.mem_cons_of_mem _ hx)
    have hstep : InnerInv g t0 (run_arc (fun _ => true) ep u t0 v).1 :=
      inner_arc hv h
    by_cases h0 : ep.infected.getD v 0 = 0
    · -- first infection
      have hcnt := inner_count_lt hv h h0
      have htl' := queue_add_toList h.qwf v hcnt
      have hc : ¬(ep.stop_criterion = Stopc.NumInfected ∧
          ep.bound = ep.num_infected + 1) := by
        rintro ⟨hx, _⟩
        rw [hst] at hx
        cases hx
      have harc := run_arc_fresh_go (v := v) (u := u) (t := t0)
        (R := fun _ => true) rfl h0 hc
      rw [harc] at hstep
      obtain ⟨i1, i2, i3, i4, i5, i6⟩ := ih hvs' _ hstep hst
      have hsetv : (ep.infected.set v (t0 + 1)).getD v 0 = t0 + 1 :=
        getD_set_self _ _ _ (by rw [h.ilen]; exact hv)
      have hsetne : ∀ w, w ≠ v →
          (ep.infected.set v (t0 + 1)).getD w 0 = ep.infected.getD w 0 :=
        fun w hw => getD_set_ne _ _ _ (fun hcc => hw hcc.symm)
      rw [run_arcs_cons, harc]
      rw [if_neg (by simp)]
      refine ⟨i1, ?_, ?_, ?_, ?_, i6⟩
      · intro w hw
        have hwv : w ≠ v := by
          intro hc'
          rw [hc'] at hw
          unfold itime at hw
          omega
        have hmid : itime { ep with
            draws := ep.draws + 1
            infected := ep.infected.set v (t0 + 1)
            overflow := ep.overflow || queue_full ep.active
            active := queue_add ep.active v
            num_infected := ep.num_infected + 1
            cascade_links := ep.cascade_links + 1
            t := t0
            trace := ep.trace ++ [(t0, u, v, ep.id)] } w = itime ep w := by
          show (ep.infected.set v (t0 + 1)).getD w 0 = _
          exact hsetne w hwv
        rw [i2 w (by rw [hmid]; exact hw), hmid]
      · intro w hw
        refine i3 w ?_
        show w ∈ (queue_add ep.active v).toList
        rw [htl']
        exact List.mem_append_left _ hw
      · intro w hw0 hwpos
        by_cases hwv : w = v
        · refine i3 w ?_
          show w ∈ (queue_add ep.active v).toList
          rw [htl', hwv]
          exact List.mem_append_right _ (List.mem_singleton.mpr rfl)
        · refine i4 w ?_ hwpos
          show (ep.infected.set v (t0 + 1)).getD w 0 = 0
          rw [hsetne w hwv]
          exact hw0
      · intro x hx
        rcases List.mem_cons.mp hx with rfl | hx
        · have hmidx : itime { ep with
              draws := ep.draws + 1
              infected := ep.infected.set x (t0 + 1)
              overflow := ep.overflow || queue_full ep.active
              active := queue_add ep.active x
              num_infected := ep.num_infected + 1
              cascade_links := ep.cascade_links + 1
              t := t0
              trace := ep.trace ++ [(t0, u, x, ep.id)] } x = t0 + 1 := hsetv
          have hfin := i2 x (by rw [hmidx]; omega)
          rw [hfin, hmidx]
          omega
        · exact i5 x hx
    · -- already infected
      have harc := run_arc_old (v := v) (u := u) (t := t0)
        (R := fun _ => true) rfl h0
      rw [harc] at hstep
      obtain ⟨i1, i2, i3, i4, i5, i6⟩ := ih hvs' _ hstep hst
      rw [run_arcs_cons, harc]
      rw [if_neg (by simp)]
      refine ⟨i1, ?_, ?_, ?_, ?_, i6⟩
      · intro w hw
        exact i2 w hw
      · intro w hw
        exact i3 w hw
      · intro w hw0 hwpos
        exact i4 w hw0 hwpos
      · intro x hx
        rcases List.mem_cons.mp hx with rfl | hx
        · have hpos : 0 < itime ep x := by
            unfold itime
            omega
          have hfin := i2 x hpos
          rw [hfin]
          exact ⟨hpos, h.inf_le x hpos⟩
        · exact i5 x hx

/-- The processed-node postcondition: every infected node within the
depth bound that is no longer on the frontier already has all its
out-neighbors infected, at the next step at the latest. -/
def C2P (g : graph) (ep : Epidemic) : Prop :=
  ∀ u, u < g.n → 0 < itime ep u → itime ep u ≤ ep.bound →
    u ∉ ep.active.toList →
    ∀ v ∈ g.out u, 0 < itime ep v ∧ itime ep v ≤ itime ep u + 1

theorem c2p_step {g : graph} {ep : Epidemic} (hg : GWF g)
    (hInv : EngineInv g ep) (hC2 : C2P g ep)
    (hne : queue_empty ep.active = false)
    (hst : ep.stop_criterion = Stopc.MaxTime) :
    C2P g (stepArcs (fun _ => true) ep).1 := by
  have hin := inv_deq_inner hInv hne
  have hvs : ∀ v ∈ (deq ep).g.out (headNode ep), v < g.n := by
    intro v hv
    have hdg : (deq ep).g = g := hInv.geq
    rw [hdg] at hv
    exact out_lt hg _ v hv
  have hstd : (deq ep).stop_criterion = Stopc.MaxTime := hst
  obtain ⟨f1, f2, f3, f4, f5, f6⟩ :=
    run_arcs_true (headNode ep) _ hvs (deq ep) hin hstd
  intro w hw hwpos hwle hwnot v hv
  have hbound : (stepArcs (fun _ => true) ep).1.bound = ep.bound :=
    (run_arcs_frame _ _ _ _ _).2.1
  by_cases hfresh : itime (deq ep) w = 0
  · exact absurd (f4 w hfresh hwpos) hwnot
  · have hwpos0 : 0 < itime (deq ep) w := Nat.pos_of_ne_zero hfresh
    have hweq : itime (stepArcs (fun _ => true) ep).1 w = itime (deq ep) w :=
      f2 w hwpos0
    by_cases hwu : w = headNode ep
    · have hvin : v ∈ (deq ep).g.out (headNode ep) := by
        have hdg : (deq ep).g = g := hInv.geq
        rw [hdg, ← hwu]
        exact hv
      have hf5 := f5 v hvin
      have hwt : itime (deq ep) w = headTime ep := by
        rw [hwu]
        rfl
      refine ⟨hf5.1, ?_⟩
      rw [hweq, hwt]
      exact hf5.2
    · have hwnotd : w ∉ (deq ep).active.toList := fun hmem => hwnot (f3 w hmem)
      have hwnotold : w ∉ ep.active.toList := by
        have htl := queue_get_toList hInv.qwf hne
        rw [htl]
        intro hmem
        rcases List.mem_cons.mp hmem with h1 | h1
        · exact hwu h1
        · exact hwnotd h1
      rw [hweq] at hwle
      rw [hbound] at hwle
      have hold := hC2 w hw hwpos0 hwle hwnotold v hv
      have hpersev : itime (stepArcs (fun _ => true) ep).1 v =
          itime (deq ep) v := f2 v hold.1
      refine ⟨by rw [hpersev]; exact hold.1, ?_⟩
      rw [hpersev, hweq]
      exact hold.2

/-- `bound` and `stop_criterion` are never written during a run. -/
theorem run_frame (R : Nat → Bool) : ∀ (fuel : Nat) (ep : Epidemic),
    (epidemic_run R fuel ep).1.bound = ep.bound ∧
    (epidemic_run R fuel ep).1.stop_criterion = ep.stop_criterion := by
  intro fuel
  induction fuel with
  | zero => exact fun ep => ⟨rfl, rfl⟩
  | succ fuel ih =>
    intro ep
    cases hqe : queue_empty ep.active
    · by_cases hs : ep.stop_criterion = Stopc.MaxTime ∧ ep.bound < headTime ep
      · rw [epidemic_run_depthStop' hqe hs.1 hs.2]
        exact ⟨rfl, rfl⟩
      · rw [epidemic_run_go' hqe hs]
        have hfr := run_arcs_frame R (headNode ep) (headTime ep)
          ((deq ep).g.out (headNode ep)) (deq ep)
        cases hb : (stepArcs R ep).2
        · rw [if_neg (by simp)]
          have hr := ih (stepArcs R ep).1
          exact ⟨by rw [hr.1]; exact hfr.2.1, by rw [hr.2]; exact hfr.1⟩
        · rw [if_pos rfl]
          exact ⟨hfr.2.1, hfr.1⟩
    · rw [epidemic_run_empty hqe]
      exact ⟨rfl, rfl⟩

/-- With the all-success oracle and stop = MaxDepth, every terminating run
leaves the processed-node postcondition with the frontier restriction
discharged: each infected node within the bound has infected all its
out-neighbors. -/
theorem run_final_true {g : graph} (hg : GWF g) :
    ∀ (fuel : Nat) (ep : Epidemic),
      EngineInv g ep → C2P g ep → ep.stop_criterion = Stopc.MaxTime →
      (epidemic_run (fun _ => true) fuel ep).2 ≠ RunResult.outOfFuel →
      ∀ u, u < g.n →
        0 < itime (epidemic_run (fun _ => true) fuel ep).1 u →
        itime (epidemic_run (fun _ => true) fuel ep).1 u ≤
          (epidemic_run (fun _ => true) fuel ep).1.bound →
        ∀ v ∈ g.out u,
          0 < itime (epidemic_run (fun _ => true) fuel ep).1 v ∧
          itime (epidemic_run (fun _ => true) fuel ep).1 v ≤
            itime (epidemic_run (fun _ => true) fuel ep).1 u + 1 := by
  intro fuel
  induction fuel with
  | zero =>
    intro ep _ _ _ hterm
    exact absurd rfl hterm
  | succ fuel ih =>
    intro ep hInv hC2 hst hterm
    cases hqe : queue_empty ep.active
    · by_cases hs : ep.bound < headTime ep
      · have heq : epidemic_run (fun _ => true) (fuel + 1) ep =
            (deq ep, RunResult.depthStop) :=
          epidemic_run_depthStop' hqe hst hs
        rw [heq]
        intro u hu hupos hule v hv
        have hupos' : 0 < itime ep u := hupos
        have hule' : itime ep u ≤ ep.bound := hule
        have htl := queue_get_toList hInv.qwf hqe
        have hsorted := hInv.qsorted
        rw [htl, List.map_cons, List.pairwise_cons] at hsorted
        have hnotin : u ∉ ep.active.toList := by
          rw [htl]
          intro hmem
          rcases List.mem_cons.mp hmem with h1 | h1
          · have : headTime ep ≤ ep.bound := by
              rw [h1] at hule'
              exact hule'
            omega
          · have hge := hsorted.1 (itime ep u) (List.mem_map_of_mem _ h1)
            have : headTime ep ≤ itime ep u := hge
            omega
        exact hC2 u hu hupos' hule' hnotin v hv
      · have hnst : ¬(ep.stop_criterion = Stopc.MaxTime ∧
            ep.bound < headTime ep) := fun hx => hs hx.2
        have hin := inv_deq_inner hInv hqe
        have hvs : ∀ v' ∈ (deq ep).g.out (headNode ep), v' < g.n := by
          intro v' hv'
          have hdg : (deq ep).g = g := hInv.geq
          rw [hdg] at hv'
          exact out_lt hg _ v' hv'
        have hstd : (deq ep).stop_criterion = Stopc.MaxTime := hst
        obtain ⟨f1, _, _, _, _, f6⟩ :=
          run_arcs_true (headNode ep) _ hvs (deq ep) hin hstd
        have hflag : (stepArcs (fun _ => true) ep).2 = false := f1
        have heq : epidemic_run (fun _ => true) (fuel + 1) ep =
            (if (stepArcs (fun _ => true) ep).2 then
              ((stepArcs (fun _ => true) ep).1, RunResult.sizeStop)
            else epidemic_run (fun _ => true) fuel (stepArcs (fun _ => true) ep).1) :=
          epidemic_run_go' hqe hnst
        rw [heq, if_neg (by simp [hflag])] at hterm ⊢
        exact ih _ (inv_step hg hInv hqe) (c2p_step hg hInv hC2 hqe hst) f6 hterm
    · rw [epidemic_run_empty hqe]
      intro u hu hupos hule v hv
      have htl0 : ep.active.toList = [] := (toList_empty_iff hInv.qwf).mp hqe
      exact hC2 u hu hupos hule (by rw [htl0]; exact List.not_mem_nil u) v hv

/-- `Reach g seeds d v`: there is a directed path of length `d` from some
seed to `v`; the shortest distance of `v` from the seed set is at most
`b` exactly when `Reach g seeds d v` holds for some `d ≤ b`. -/
inductive Reach (g : graph) (seeds : List Nat) : Nat → Nat → Prop where
  | seed (s : Nat) (hs : s ∈ seeds) : Reach g seeds 0 s
  | step (d u v : Nat) (hu : Reach g seeds d u) (hv : v ∈ g.out u) :
      Reach g seeds (d + 1) v

theorem reach_lt {g : graph} {seeds : List Nat} (hg : GWF g)
    (hlt : ∀ s ∈ seeds, s < g.n) :
    ∀ (d v : Nat), Reach g seeds d v → v < g.n := by
  intro d v h
  induction h with
  | seed s hs => exact hlt s hs
  | step d u v _ hv _ => exact out_lt hg u v hv

/-- C2: with p = 1 (every trial succeeds), stop = MaxDepth with a positive
bound, and distinct in-range seeds, every terminating run infects every
node whose shortest distance from the seed set is at most the bound. -/
theorem C2_reachable_infected (g : graph) (ic : InitialCondition) (hg : GWF g)
    (hnd : ic.infected.Nodup) (hlt : ∀ s ∈ ic.infected, s < g.n)
    (hst : ic.stop_criterion = Stopc.MaxTime) (_hpos : 0 < ic.bound)
    (fuel : Nat)
    (hterm : (epidemic_run (fun _ => true) fuel (epidemic_new g ic)).2 ≠
      RunResult.outOfFuel) :
    ∀ v d, d ≤ ic.bound → Reach g ic.infected d v →
      0 < (epidemic_run (fun _ => true) fuel
        (epidemic_new g ic)).1.infected.getD v 0 := by
  have hk : ic.infected.length ≤ g.n := by
    have := nodup_length_le ic.infected (Finset.range g.n) hnd
      (fun x hx => Finset.mem_range.mpr (hlt x hx))
    simpa using this
  obtain ⟨e1, e2, e3, e4, e5, e6, e7, e8, e9, e10, e11, e12, e13, e14, e15⟩ :=
    epidemic_new_spec g ic hk
  have hInv := inv_new hnd hlt
  have hC2new : C2P g (epidemic_new g ic) := by
    intro u _ hupos _ hunotin v _
    exfalso
    apply hunotin
    rw [e2]
    unfold itime at hupos
    rw [e5 u] at hupos
    by_cases hmem : u ∈ ic.infected ∧ u < g.n
    · exact hmem.1
    · rw [if_neg hmem] at hupos
      omega
  have hstep0 : (epidemic_new g ic).stop_criterion = Stopc.MaxTime := by
    rw [e7, hst]
  have hFinal := run_final_true hg fuel (epidemic_new g ic) hInv hC2new
    hstep0 hterm
  have hboundfin : (epidemic_run (fun _ => true) fuel
      (epidemic_new g ic)).1.bound = ic.bound := by
    rw [(run_frame _ fuel (epidemic_new g ic)).1, e8]
  have key : ∀ d, d ≤ ic.bound → ∀ v, Reach g ic.infected d v →
      0 < itime (epidemic_run (fun _ => true) fuel (epidemic_new g ic)).1 v ∧
      itime (epidemic_run (fun _ => true) fuel (epidemic_new g ic)).1 v ≤
        d + 1 := by
    intro d
    induction d with
    | zero =>
      intro _ v hr
      cases hr with
      | seed s hs =>
        have hseed1 : (epidemic_new g ic).infected.getD v 0 = 1 := by
          rw [e5 v, if_pos ⟨hs, hlt v hs⟩]
        have hper := run_persist (fun _ => true) v 1 (by omega) fuel
          (epidemic_new g ic) hseed1
        unfold itime
        rw [hper]
        omega
    | succ d ihd =>
      intro hdb v hr
      cases hr with
      | step d u v hu hv =>
        have hud := ihd (by omega) u hu
        have hun : u < g.n := reach_lt hg hlt d u hu
        have hfin := hFinal u hun hud.1 (by rw [hboundfin]; omega) v hv
        exact ⟨hfin.1, by omega⟩
  intro v d hd hr
  exact (key d hd v hr).1

/-- Witness for C2 on the line graph: node 2 sits at distance 2 = bound
from the seed and ends infected. -/
theorem C2_witness :
    (epidemic_run (fun _ => true) 3
        (epidemic_new lineG ⟨7, [0], 2, Stopc.MaxTime⟩)).2 ≠
      RunResult.outOfFuel ∧
    Reach lineG [0] 2 2 ∧
    0 < (epidemic_run (fun _ => true) 3
      (epidemic_new lineG ⟨7, [0], 2, Stopc.MaxTime⟩)).1.infected.getD 2 0 :=
  ⟨by
    show (epidemic_run allSucc 3
      (epidemic_new lineG ⟨7, [0], 2, Stopc.MaxTime⟩)).2 ≠ RunResult.outOfFuel
    rw [line_run 7]
    decide,
    Reach.step 1 1 2 (Reach.step 0 0 1 (Reach.seed 0 (by decide)) (by decide))
      (by decide),
    C2_reachable_infected lineG ⟨7, [0], 2, Stopc.MaxTime⟩
      ⟨by decide, by decide⟩ (by decide) (by decide) (by decide) (by decide)
      3 (by
        show (epidemic_run allSucc 3
          (epidemic_new lineG ⟨7, [0], 2, Stopc.MaxTime⟩)).2 ≠ RunResult.outOfFuel
        rw [line_run 7]
        decide) 2 2 (by decide)
      (Reach.step 1 1 2 (Reach.step 0 0 1 (Reach.seed 0 (by decide)) (by decide))
        (by decide))⟩
